import Mathlib

/-!
Shallow embedding of the annotation-set reconciliation engine
(src/pages/compare.py) and the corpus combiner (src/tools/merge_only_coco.py)
of the ImageDatasetManager repository, together with proofs of the
specification claims about them.

Modelling conventions:
* Python dicts are association lists built with insertion-order update
  semantics (`pyUpd`, `pyDict`); lists built this way have unique keys, so
  first-match lookup (`dfind`) agrees with Python dict lookup.
* A record possibly missing a required JSON key is modelled with an `Option`
  field; a raised Python exception (KeyError, ValueError, AssertionError) is
  modelled by `Option`/`Except` error results.
* `float` coordinates are modelled by `ℚ` (the arithmetic performed is
  max/min/add/sub/mul/div on small values), integer identifiers by `ℤ`.
-/

section PyDict

variable {K V : Type} [DecidableEq K]

/-- Association-list lookup, first match wins.  All dicts in this
development are built by `pyUpd`/`pyDict` and hence have unique keys, so
this coincides with Python dict lookup. -/
def dfind : List (K × V) → K → Option V
  | [], _ => none
  | (k, v) :: rest, k' => if k = k' then some v else dfind rest k'

/-- Python dict assignment `d[k] = v`: replace the value in place if the key
is present, otherwise append a new entry (insertion order preserved). -/
def pyUpd : List (K × V) → K → V → List (K × V)
  | [], k, v => [(k, v)]
  | (k', v') :: rest, k, v =>
      if k' = k then (k', v) :: rest else (k', v') :: pyUpd rest k v

/-- Python dict comprehension over a list of key/value pairs. -/
def pyDict (l : List (K × V)) : List (K × V) :=
  l.foldl (fun d p => pyUpd d p.1 p.2) []

theorem dfind_pyUpd (d : List (K × V)) (k k' : K) (v : V) :
    dfind (pyUpd d k v) k' = if k = k' then some v else dfind d k' := by
  induction d with
  | nil => simp [pyUpd, dfind]
  | cons hd tl ih =>
      obtain ⟨a, b⟩ := hd
      by_cases hak : a = k
      · subst hak
        by_cases hk' : a = k' <;> simp [pyUpd, dfind, hk']
      · by_cases hk' : a = k'
        · subst hk'
          have : ¬ k = a := fun h => hak h.symm
          simp [pyUpd, dfind, hak, this]
        · simp [pyUpd, dfind, hak, hk', ih]

theorem mem_keys_pyUpd (d : List (K × V)) (k k' : K) (v : V) :
    k' ∈ (pyUpd d k v).map Prod.fst ↔ k' ∈ d.map Prod.fst ∨ k' = k := by
  induction d with
  | nil => simp [pyUpd]
  | cons hd tl ih =>
      obtain ⟨a, b⟩ := hd
      by_cases hak : a = k
      · subst hak; simp [pyUpd]; tauto
      · simp [pyUpd, hak, ih]; tauto

theorem keys_nodup_pyUpd (d : List (K × V)) (k : K) (v : V)
    (h : (d.map Prod.fst).Nodup) : ((pyUpd d k v).map Prod.fst).Nodup := by
  induction d with
  | nil => simp [pyUpd]
  | cons hd tl ih =>
      obtain ⟨a, b⟩ := hd
      simp only [List.map_cons, List.nodup_cons] at h
      by_cases hak : a = k
      · subst hak
        simpa [pyUpd] using h
      · simp only [pyUpd, hak, if_false, List.map_cons, List.nodup_cons]
        refine ⟨?_, ih h.2⟩
        rw [mem_keys_pyUpd]
        rintro (hmem | rfl)
        · exact h.1 hmem
        · exact hak rfl

theorem pyUpd_of_not_mem_keys (d : List (K × V)) (k : K) (v : V)
    (h : k ∉ d.map Prod.fst) : pyUpd d k v = d ++ [(k, v)] := by
  induction d with
  | nil => simp [pyUpd]
  | cons hd tl ih =>
      obtain ⟨a, b⟩ := hd
      simp only [List.map_cons, List.mem_cons] at h
      push_neg at h
      have hak : ¬ a = k := fun hh => h.1 hh.symm
      simp [pyUpd, hak, ih h.2]

/-- Folding dict assignments over pairs whose keys are fresh and mutually
distinct just appends the pairs. -/
theorem foldl_pyUpd_of_fresh (l : List (K × V)) :
    ∀ d : List (K × V), (l.map Prod.fst).Nodup →
      (∀ k, k ∈ l.map Prod.fst → k ∉ d.map Prod.fst) →
      l.foldl (fun d p => pyUpd d p.1 p.2) d = d ++ l := by
  induction l with
  | nil => intro d _ _; simp
  | cons hd tl ih =>
      intro d hnd hfresh
      obtain ⟨a, b⟩ := hd
      simp only [List.map_cons, List.nodup_cons] at hnd
      have ha : a ∉ d.map Prod.fst := hfresh a (by simp)
      have step : pyUpd d a b = d ++ [(a, b)] := pyUpd_of_not_mem_keys d a b ha
      simp only [List.foldl_cons, step]
      rw [ih (d ++ [(a, b)]) hnd.2]
      · simp
      · intro k hk
        simp only [List.map_append, List.mem_append, List.map_cons]
        rintro (hkd | hkab)
        · exact hfresh k (by simp [hk]) hkd
        · simp at hkab
          exact hnd.1 (hkab ▸ hk)

/-- A list of pairs with distinct keys is its own Python dict. -/
theorem pyDict_eq_self (l : List (K × V)) (h : (l.map Prod.fst).Nodup) :
    pyDict l = l := by
  have := foldl_pyUpd_of_fresh l [] h (by simp)
  simpa [pyDict] using this

theorem keys_nodup_pyDict (l : List (K × V)) :
    ((pyDict l).map Prod.fst).Nodup := by
  have main : ∀ (xs : List (K × V)) (d : List (K × V)),
      (d.map Prod.fst).Nodup →
      ((xs.foldl (fun d p => pyUpd d p.1 p.2) d).map Prod.fst).Nodup := by
    intro xs
    induction xs with
    | nil => intro d hd; simpa using hd
    | cons hd tl ih =>
        intro d hnd
        exact ih _ (keys_nodup_pyUpd d hd.1 hd.2 hnd)
  simpa [pyDict] using main l [] (by simp)

theorem mem_keys_pyDict (l : List (K × V)) (k : K) :
    k ∈ (pyDict l).map Prod.fst ↔ k ∈ l.map Prod.fst := by
  have main : ∀ (xs : List (K × V)) (d : List (K × V)),
      (k ∈ (xs.foldl (fun d p => pyUpd d p.1 p.2) d).map Prod.fst ↔
        k ∈ d.map Prod.fst ∨ k ∈ xs.map Prod.fst) := by
    intro xs
    induction xs with
    | nil => intro d; simp
    | cons hd tl ih =>
        intro d
        simp only [List.foldl_cons, List.map_cons, List.mem_cons]
        rw [ih, mem_keys_pyUpd]
        tauto
  have := main l []
  simpa [pyDict] using this

theorem dfind_mem (d : List (K × V)) (k : K) (v : V)
    (h : dfind d k = some v) : (k, v) ∈ d := by
  induction d with
  | nil => simp [dfind] at h
  | cons hd tl ih =>
      obtain ⟨a, b⟩ := hd
      by_cases hak : a = k
      · subst hak
        simp [dfind] at h
        simp [h]
      · simp [dfind, hak] at h
        exact List.mem_cons_of_mem _ (ih h)

theorem dfind_eq_none_iff (d : List (K × V)) (k : K) :
    dfind d k = none ↔ k ∉ d.map Prod.fst := by
  induction d with
  | nil => simp [dfind]
  | cons hd tl ih =>
      obtain ⟨a, b⟩ := hd
      by_cases hak : a = k
      · subst hak; simp [dfind]
      · simp only [dfind, if_neg hak, List.map_cons, List.mem_cons, ih, not_or]
        exact ⟨fun h => ⟨fun hka => hak hka.symm, h⟩, fun h => h.2⟩

theorem dfind_of_mem_nodup (d : List (K × V)) (k : K) (v : V)
    (hnd : (d.map Prod.fst).Nodup) (hmem : (k, v) ∈ d) :
    dfind d k = some v := by
  induction d with
  | nil => simp at hmem
  | cons hd tl ih =>
      obtain ⟨a, b⟩ := hd
      simp only [List.map_cons, List.nodup_cons] at hnd
      rcases List.mem_cons.1 hmem with heq | hmem'
      · obtain ⟨rfl, rfl⟩ := Prod.mk.injEq .. ▸ heq
        simp [dfind]
      · have hak : ¬ a = k := by
          rintro rfl
          exact hnd.1 (by simpa using ⟨v, hmem'⟩)
        simp [dfind, hak, ih hnd.2 hmem']

theorem dfind_snd_mem (d : List (K × V)) (k : K) (v : V)
    (h : dfind d k = some v) : v ∈ d.map Prod.snd := by
  have := dfind_mem d k v h
  exact List.mem_map.2 ⟨(k, v), this, rfl⟩

end PyDict

section MaxList

/-- Python `max` over a list of integers (`none` on the empty list, where
Python raises ValueError). -/
def maxList : List ℤ → Option ℤ
  | [] => none
  | x :: rest =>
      match maxList rest with
      | none => some x
      | some m => some (max x m)

theorem maxList_isSome (l : List ℤ) (h : l ≠ []) : ∃ m, maxList l = some m := by
  cases l with
  | nil => exact absurd rfl h
  | cons x rest =>
      cases hr : maxList rest with
      | none => exact ⟨x, by simp [maxList, hr]⟩
      | some m => exact ⟨max x m, by simp [maxList, hr]⟩

theorem maxList_spec (l : List ℤ) (m : ℤ) (h : maxList l = some m) :
    m ∈ l ∧ ∀ x ∈ l, x ≤ m := by
  induction l generalizing m with
  | nil => simp [maxList] at h
  | cons x rest ih =>
      cases hr : maxList rest with
      | none =>
          simp [maxList, hr] at h
          subst h
          have hrest : rest = [] := by
            cases rest with
            | nil => rfl
            | cons y t =>
                exfalso
                obtain ⟨m', hm'⟩ := maxList_isSome (y :: t) (by simp)
                simp [hm'] at hr
          subst hrest
          simp
      | some mr =>
          simp [maxList, hr] at h
          obtain ⟨hmem, hle⟩ := ih mr hr
          subst h
          constructor
          · rcases le_total x mr with hx | hx
            · simp [max_eq_right hx, List.mem_cons]
              exact Or.inr hmem
            · simp [max_eq_left hx]
          · intro y hy
            rcases List.mem_cons.1 hy with rfl | hy'
            · exact le_max_left _ _
            · exact le_trans (hle y hy') (le_max_right _ _)

end MaxList

section WithIdx

variable {α : Type}

/-- Python `enumerate` starting at index `n`. -/
def withIdxAux (n : ℕ) : List α → List (ℕ × α)
  | [] => []
  | a :: rest => (n, a) :: withIdxAux (n + 1) rest

/-- Python `enumerate`. -/
def withIdx (l : List α) : List (ℕ × α) := withIdxAux 0 l

theorem withIdxAux_map_snd (l : List α) :
    ∀ n, (withIdxAux n l).map Prod.snd = l := by
  induction l with
  | nil => intro n; simp [withIdxAux]
  | cons a rest ih => intro n; simp [withIdxAux, ih]

theorem withIdxAux_length (l : List α) :
    ∀ n, (withIdxAux n l).length = l.length := by
  induction l with
  | nil => intro n; simp [withIdxAux]
  | cons a rest ih => intro n; simp [withIdxAux, ih]

theorem withIdxAux_fst_bounds (l : List α) :
    ∀ n p, p ∈ withIdxAux n l → n ≤ p.1 ∧ p.1 < n + l.length := by
  induction l with
  | nil => intro n p hp; simp [withIdxAux] at hp
  | cons a rest ih =>
      intro n p hp
      rcases List.mem_cons.1 hp with rfl | hp'
      · simp
      · obtain ⟨h1, h2⟩ := ih (n + 1) p hp'
        refine ⟨by omega, ?_⟩
        simp only [List.length_cons]
        omega

end WithIdx

section AssocOfIdx

variable {α K : Type} [DecidableEq K]

theorem assoc_withIdx_keys (key : α → K) (f : ℕ → ℤ) (l : List α) (n : ℕ) :
    ((withIdxAux n l).map (fun p => (key p.2, f p.1))).map Prod.fst = l.map key := by
  rw [List.map_map]
  have : (Prod.fst ∘ fun p : ℕ × α => (key p.2, f p.1)) = fun p : ℕ × α => key p.2 := rfl
  rw [this]
  have h2 : (fun p : ℕ × α => key p.2) = key ∘ Prod.snd := rfl
  rw [h2, ← List.map_map, withIdxAux_map_snd]

theorem dfind_assoc_withIdx (key : α → K) (f : ℕ → ℤ) (d0 : ℤ) (l : List α) :
    ∀ n, (l.map key).Nodup →
      l.map (fun x =>
        (dfind ((withIdxAux n l).map (fun p => (key p.2, f p.1))) (key x)).getD d0)
      = (withIdxAux n l).map (fun p => f p.1) := by
  induction l with
  | nil => intro n _; simp [withIdxAux]
  | cons a rest ih =>
      intro n hnd
      simp only [List.map_cons, List.nodup_cons] at hnd
      simp only [withIdxAux, List.map_cons]
      congr 1
      · simp [dfind]
      · have tail : rest.map (fun x =>
            (dfind ((key a, f n) :: (withIdxAux (n + 1) rest).map
              (fun p => (key p.2, f p.1))) (key x)).getD d0)
            = rest.map (fun x =>
              (dfind ((withIdxAux (n + 1) rest).map
                (fun p => (key p.2, f p.1))) (key x)).getD d0) := by
          apply List.map_congr_left
          intro x hx
          have hne : ¬ key a = key x := by
            intro h
            exact hnd.1 (h ▸ List.mem_map_of_mem key hx)
          simp [dfind, hne]
        rw [tail, ih (n + 1) hnd.2]

theorem nodup_vals_withIdx (f : ℕ → ℤ) (hf : Function.Injective f) (l : List α) :
    ∀ n, ((withIdxAux n l).map (fun p => f p.1)).Nodup := by
  induction l with
  | nil => intro n; simp [withIdxAux]
  | cons a rest ih =>
      intro n
      simp only [withIdxAux, List.map_cons, List.nodup_cons]
      refine ⟨?_, ih (n + 1)⟩
      intro hmem
      obtain ⟨p, hp, hfp⟩ := List.mem_map.1 hmem
      have := (withIdxAux_fst_bounds rest (n + 1) p hp).1
      have := hf hfp
      omega

theorem mem_vals_withIdx (f : ℕ → ℤ) (l : List α) (n : ℕ) (x : ℤ)
    (h : x ∈ (withIdxAux n l).map (fun p => f p.1)) :
    ∃ i : ℕ, n ≤ i ∧ i < n + l.length ∧ x = f i := by
  obtain ⟨p, hp, hfp⟩ := List.mem_map.1 h
  obtain ⟨h1, h2⟩ := withIdxAux_fst_bounds l n p hp
  exact ⟨p.1, h1, h2, hfp.symm⟩

theorem maxList_withIdx (l : List α) :
    ∀ n, l ≠ [] →
      maxList ((withIdxAux n l).map (fun p => (p.1 : ℤ)))
        = some ((n : ℤ) + l.length - 1) := by
  induction l with
  | nil => intro n h; exact absurd rfl h
  | cons a rest ih =>
      intro n _
      cases hrest : rest with
      | nil => simp [withIdxAux, maxList]
      | cons b t =>
          have hne : rest ≠ [] := by simp [hrest]
          rw [← hrest]
          simp only [withIdxAux, List.map_cons, maxList, ih (n + 1) hne,
            List.length_cons]
          congr 1
          rw [max_eq_right (by push_cast; omega)]
          push_cast
          ring

section Geometry

/-- A bounding box in corner form `[x1, y1, x2, y2]`, as consumed by
`calculate_iou` in src/pages/compare.py. -/
structure Box where
  x1 : ℚ
  y1 : ℚ
  x2 : ℚ
  y2 : ℚ
deriving DecidableEq

/-- `calculate_iou` (src/pages/compare.py, lines 13-37): IoU between two
bounding boxes in corner form. -/
def calculate_iou (box1 box2 : Box) : ℚ :=
  let x1 := max box1.x1 box2.x1
  let y1 := max box1.y1 box2.y1
  let x2 := min box1.x2 box2.x2
  let y2 := min box1.y2 box2.y2
  if x2 < x1 ∨ y2 < y1 then 0
  else
    let intersection_area := (x2 - x1) * (y2 - y1)
    let box1_area := (box1.x2 - box1.x1) * (box1.y2 - box1.y1)
    let box2_area := (box2.x2 - box2.x1) * (box2.y2 - box2.y1)
    let union_area := box1_area + box2_area - intersection_area
    if 0 < union_area then intersection_area / union_area else 0

theorem calculate_iou_eq (box1 box2 : Box) :
    calculate_iou box1 box2 =
      if min box1.x2 box2.x2 < max box1.x1 box2.x1 ∨
          min box1.y2 box2.y2 < max box1.y1 box2.y1 then 0
      else
        if 0 < (box1.x2 - box1.x1) * (box1.y2 - box1.y1)
              + (box2.x2 - box2.x1) * (box2.y2 - box2.y1)
              - (min box1.x2 box2.x2 - max box1.x1 box2.x1)
              * (min box1.y2 box2.y2 - max box1.y1 box2.y1) then
          (min box1.x2 box2.x2 - max box1.x1 box2.x1)
            * (min box1.y2 box2.y2 - max box1.y1 box2.y1)
          / ((box1.x2 - box1.x1) * (box1.y2 - box1.y1)
              + (box2.x2 - box2.x1) * (box2.y2 - box2.y1)
              - (min box1.x2 box2.x2 - max box1.x1 box2.x1)
              * (min box1.y2 box2.y2 - max box1.y1 box2.y1))
        else 0 := rfl

/-- C7: for all inputs to `calculate_iou`, including malformed boxes where
`x1 > x2` or `y1 > y2`, the returned value lies in `[0, 1]`. -/
theorem claim_C7_iou_range (box1 box2 : Box) :
    0 ≤ calculate_iou box1 box2 ∧ calculate_iou box1 box2 ≤ 1 := by
  rw [calculate_iou_eq]
  by_cases hdeg : min box1.x2 box2.x2 < max box1.x1 box2.x1 ∨
      min box1.y2 box2.y2 < max box1.y1 box2.y1
  · rw [if_pos hdeg]
    exact ⟨le_refl 0, by norm_num⟩
  · have hdeg' := hdeg
    push_neg at hdeg'
    obtain ⟨hx, hy⟩ := hdeg'
    rw [if_neg hdeg]
    set I := (min box1.x2 box2.x2 - max box1.x1 box2.x1)
      * (min box1.y2 box2.y2 - max box1.y1 box2.y1) with hI
    set A1 := (box1.x2 - box1.x1) * (box1.y2 - box1.y1) with hA1
    set A2 := (box2.x2 - box2.x1) * (box2.y2 - box2.y1) with hA2
    have hInn : 0 ≤ I := mul_nonneg (by linarith) (by linarith)
    have hIA1 : I ≤ A1 := by
      apply mul_le_mul
      · have := le_max_left box1.x1 box2.x1
        have := min_le_left box1.x2 box2.x2
        linarith
      · have := le_max_left box1.y1 box2.y1
        have := min_le_left box1.y2 box2.y2
        linarith
      · linarith
      · have h1 := le_max_left box1.x1 box2.x1
        have h2 := min_le_left box1.x2 box2.x2
        linarith
    have hIA2 : I ≤ A2 := by
      apply mul_le_mul
      · have := le_max_right box1.x1 box2.x1
        have := min_le_right box1.x2 box2.x2
        linarith
      · have := le_max_right box1.y1 box2.y1
        have := min_le_right box1.y2 box2.y2
        linarith
      · linarith
      · have h1 := le_max_right box1.x1 box2.x1
        have h2 := min_le_right box1.x2 box2.x2
        linarith
    by_cases hU : 0 < A1 + A2 - I
    · rw [if_pos hU]
      constructor
      · exact div_nonneg hInn (le_of_lt hU)
      · rw [div_le_one hU]
        linarith
    · rw [if_neg hU]
      exact ⟨le_refl 0, by norm_num⟩

/-- C8: `calculate_iou` is symmetric in its two box arguments. -/
theorem claim_C8_iou_symm (box1 box2 : Box) :
    calculate_iou box1 box2 = calculate_iou box2 box1 := by
  rw [calculate_iou_eq, calculate_iou_eq]
  rw [max_comm box2.x1 box1.x1, max_comm box2.y1 box1.y1,
    min_comm box2.x2 box1.x2, min_comm box2.y2 box1.y2]
  set I := (min box1.x2 box2.x2 - max box1.x1 box2.x1)
    * (min box1.y2 box2.y2 - max box1.y1 box2.y1) with hI
  set A1 := (box1.x2 - box1.x1) * (box1.y2 - box1.y1) with hA1
  set A2 := (box2.x2 - box2.x1) * (box2.y2 - box2.y1) with hA2
  by_cases h : min box1.x2 box2.x2 < max box1.x1 box2.x1 ∨
      min box1.y2 box2.y2 < max box1.y1 box2.y1
  · rw [if_pos h, if_pos h]
  · rw [if_neg h, if_neg h]
    by_cases hU : 0 < A1 + A2 - I
    · rw [if_pos hU, if_pos (show 0 < A2 + A1 - I by linarith)]
      ring_nf
    · rw [if_neg hU, if_neg (show ¬ 0 < A2 + A1 - I by
        intro hc; exact hU (by linarith))]

end Geometry

section CompareDefs

/-- An image record of a COCO file as read by src/pages/compare.py
(only the fields the comparison code touches). -/
structure CImage where
  id : ℤ
  file_name : String
deriving DecidableEq

/-- A category record (id and name). -/
structure CCat where
  id : ℤ
  name : String
deriving DecidableEq

/-- A COCO bbox `[x, y, width, height]`. -/
structure Bbox where
  x : ℚ
  y : ℚ
  w : ℚ
  h : ℚ
deriving DecidableEq

/-- An annotation record as consumed by src/pages/compare.py.  The three
required keys accessed by the code (`image_id`, `category_id`, `bbox`) are
`Option`s: `none` models a record missing that key, on which the Python
code raises KeyError. -/
structure CAnn where
  image_id : Option ℤ
  category_id : Option ℤ
  bbox : Option Bbox
deriving DecidableEq

/-- A loaded COCO file: the triple of record lists. -/
structure Coco where
  images : List CImage
  categories : List CCat
  annotations : List CAnn
deriving DecidableEq

/-- Conversion from `[x, y, width, height]` to corner form
`[x, y, x + width, y + height]` (compare.py lines 137/142). -/
def toBox (b : Bbox) : Box := ⟨b.x, b.y, b.x + b.w, b.y + b.h⟩

/-- `match_images_by_filename` (compare.py lines 40-56): map each image id
of `coco1` to the id of the image of `coco2` with the same file name, when
one exists.  (The dict of coco1 file names built at line 46 is unused by
the source and hence omitted.) -/
def match_images_by_filename (coco1 coco2 : Coco) : List (ℤ × ℤ) :=
  let coco2_filename_to_id :=
    pyDict (coco2.images.map (fun img => (img.file_name, img.id)))
  coco1.images.foldl (fun m img =>
    match dfind coco2_filename_to_id img.file_name with
    | some j => pyUpd m img.id j
    | none => m) []

/-- `create_category_mapping` (compare.py lines 59-75): map each category id
of `coco1` to the id of the same-named category of `coco2`, when one
exists. -/
def create_category_mapping (coco1 coco2 : Coco) : List (ℤ × ℤ) :=
  let coco2_name_to_id :=
    pyDict (coco2.categories.map (fun cat => (cat.name, cat.id)))
  coco1.categories.foldl (fun m cat =>
    match dfind coco2_name_to_id cat.name with
    | some j => pyUpd m cat.id j
    | none => m) []

/-- Append an annotation to the bucket of its image id, creating the bucket
if needed (compare.py lines 101-106). -/
def indexInsert (d : List (ℤ × List CAnn)) (i : ℤ) (a : CAnn) :
    List (ℤ × List CAnn) :=
  match d with
  | [] => [(i, [a])]
  | (k, l) :: rest =>
      if k = i then (k, l ++ [a]) :: rest else (k, l) :: indexInsert rest i a

/-- Building `coco2_image_to_anns` (compare.py lines 101-106); `none` models
the KeyError on a coco2 annotation missing `image_id`. -/
def buildIndex : List CAnn → List (ℤ × List CAnn) → Option (List (ℤ × List CAnn))
  | [], d => some d
  | a :: rest, d =>
      match a.image_id with
      | none => none
      | some i => buildIndex rest (indexInsert d i a)

/-- A mismatch record as appended by compare.py lines 163-175. -/
structure Mismatch where
  image_id : ℤ
  image_filename : Option String
  box1 : Box
  box2 : Box
  iou : ℚ
  coco1_category : String
  coco2_category : String
  ann1 : CAnn
  ann2 : CAnn
deriving DecidableEq

/-- The inner loop of `compare_coco_annotations` (compare.py lines 140-175)
over the coco2 annotations of the corresponding image; `none` models a
KeyError raised on a malformed coco2 record.  Note that `category_id` of a
coco2 record is only read when the IoU test passed (Python's short-circuit
`and` at lines 148-151). -/
def innerLoop (coco1 : Coco) (cats2 : List (ℤ × String)) (thr : ℚ)
    (iid1 : ℤ) (catname1 : String) (expCid : ℤ) (box1 : Box) (a1 : CAnn) :
    List CAnn → Option (List Mismatch)
  | [] => some []
  | a2 :: rest =>
      match a2.bbox with
      | none => none
      | some bb2 =>
          let box2 := toBox bb2
          let iouv := calculate_iou box1 box2
          if thr ≤ iouv then
            match a2.category_id with
            | none => none
            | some cid2 =>
                if cid2 ≠ expCid then
                  match innerLoop coco1 cats2 thr iid1 catname1 expCid box1 a1 rest with
                  | none => none
                  | some ms =>
                      some ({ image_id := iid1,
                              image_filename :=
                                (coco1.images.find? (fun img => img.id = iid1)).map
                                  (fun img => img.file_name),
                              box1 := box1, box2 := box2, iou := iouv,
                              coco1_category := catname1,
                              coco2_category := (dfind cats2 cid2).getD "Unknown",
                              ann1 := a1, ann2 := a2 } :: ms)
                else innerLoop coco1 cats2 thr iid1 catname1 expCid box1 a1 rest
          else innerLoop coco1 cats2 thr iid1 catname1 expCid box1 a1 rest

/-- The outer loop of `compare_coco_annotations` (compare.py lines 111-175)
over coco1's annotations.  A branch falling into `continue` in the source
skips to the rest of the list; a KeyError is `none`. -/
def processAnns (coco1 : Coco) (thr : ℚ) (imap cmap : List (ℤ × ℤ))
    (cats1 cats2 : List (ℤ × String)) (idx : List (ℤ × List CAnn)) :
    List CAnn → Option (List Mismatch)
  | [] => some []
  | a1 :: rest =>
      match a1.image_id with
      | none => none
      | some iid1 =>
          match dfind imap iid1 with
          | none => processAnns coco1 thr imap cmap cats1 cats2 idx rest
          | some iid2 =>
              match dfind idx iid2 with
              | none => processAnns coco1 thr imap cmap cats1 cats2 idx rest
              | some anns2 =>
                  match a1.category_id with
                  | none => none
                  | some cid1 =>
                      match dfind cats1 cid1 with
                      | none => processAnns coco1 thr imap cmap cats1 cats2 idx rest
                      | some catname1 =>
                          match dfind cmap cid1 with
                          | none => processAnns coco1 thr imap cmap cats1 cats2 idx rest
                          | some expCid =>
                              match a1.bbox with
                              | none => none
                              | some bb1 =>
                                  match innerLoop coco1 cats2 thr iid1 catname1
                                      expCid (toBox bb1) a1 anns2 with
                                  | none => none
                                  | some ms =>
                                      match processAnns coco1 thr imap cmap
                                          cats1 cats2 idx rest with
                                      | none => none
                                      | some msr => some (ms ++ msr)

/-- `compare_coco_annotations` (compare.py lines 78-177).  Returns `none`
when the Python code would raise a KeyError on a malformed record, and
`some mismatches` otherwise. -/
def compare_coco_annotations (coco1 coco2 : Coco) (thr : ℚ) :
    Option (List Mismatch) :=
  let cats1 := pyDict (coco1.categories.map (fun c => (c.id, c.name)))
  let cats2 := pyDict (coco2.categories.map (fun c => (c.id, c.name)))
  let imap := match_images_by_filename coco1 coco2
  let cmap := create_category_mapping coco1 coco2
  match buildIndex coco2.annotations [] with
  | none => none
  | some idx => processAnns coco1 thr imap cmap cats1 cats2 idx coco1.annotations

end CompareDefs

section MergeDefs

/-- An image record as handled by src/tools/merge_only_coco.py. -/
structure MImage where
  id : ℤ
  file_name : String
deriving DecidableEq

/-- An annotation record as handled by the combiner: `id` and `image_id`
are rewritten; `category_id` stands for the untouched payload carried along
(the real records also carry bbox/area fields, which the combiner never
reads or writes either). -/
structure MAnn where
  id : ℤ
  image_id : ℤ
  category_id : ℤ
deriving DecidableEq

/-- A category record. -/
structure MCat where
  id : ℤ
  name : String
deriving DecidableEq

/-- A loaded COCO file as handled by the combiner. -/
structure MColl where
  images : List MImage
  annotations : List MAnn
  categories : List MCat
deriving DecidableEq

/-- The exceptions `combine` can raise: `categoryMismatch name` models the
AssertionError of lines 78-99, `maxEmpty` the ValueError of `max()` on an
empty sequence (lines 104/114), `keyMissing` a KeyError on a dict lookup of
an image id that was never enumerated (lines 120/123). -/
inductive CombineErr where
  | categoryMismatch (name : String)
  | maxEmpty
  | keyMissing
deriving DecidableEq

/-- Duplicate-filename removal (merge_only_coco.py lines 50-69): drop from
`d2` every image whose file name also occurs in `d1`, and every `d2`
annotation referencing such an image. -/
def dropDups (d1 d2 : MColl) : MColl :=
  let filenames1 : List String := d1.images.map (fun img => img.file_name)
  let filenames2 : List String := d2.images.map (fun img => img.file_name)
  let duplicates : List String := filenames1.filter (fun n => decide (n ∈ filenames2))
  if duplicates.isEmpty then d2
  else
    let removed_image_ids : List ℤ :=
      (d2.images.filter (fun (img : MImage) => decide (img.file_name ∈ duplicates))).map
        (fun (img : MImage) => img.id)
    { d2 with
      images := d2.images.filter (fun (img : MImage) => decide (img.file_name ∉ duplicates)),
      annotations :=
        d2.annotations.filter (fun (ann : MAnn) => decide (ann.image_id ∉ removed_image_ids)) }

/-- One direction of the category consistency check (merge_only_coco.py
lines 75-86 resp. 88-99): every name of `cats` must occur in `other` with
the same id. -/
def checkCatsOne : List (String × ℤ) → List (String × ℤ) → Except CombineErr Unit
  | [], _ => .ok ()
  | (n, i) :: rest, other =>
      match dfind other n with
      | some j => if i ≠ j then .error (.categoryMismatch n) else checkCatsOne rest other
      | none => .error (.categoryMismatch n)

/-- Both direction loops of the category consistency check.  The first
loop compares `d1`'s ids against `d2`'s, the second the reverse; both raise
AssertionError carrying the offending category name. -/
def checkCats (c1 c2 : List (String × ℤ)) : Except CombineErr Unit :=
  match checkCatsOne c1 c2 with
  | .error e => .error e
  | .ok () => checkCatsOne c2 c1

/-- Identifier-rewriting loop for annotations (merge_only_coco.py lines
118-123): look up the new annotation id in `bid` (always present by
construction, hence `getD`) and the new image id in `b` (a KeyError when
the annotation references an image id absent from the corresponding image
list). -/
def rewriteAnns (b bid : List (ℤ × ℤ)) : List MAnn → Except CombineErr (List MAnn)
  | [] => .ok []
  | a :: rest =>
      match dfind b a.image_id with
      | none => .error .keyMissing
      | some ni =>
          match rewriteAnns b bid rest with
          | .error e => .error e
          | .ok rest' =>
              .ok ({ a with id := (dfind bid a.id).getD 0, image_id := ni } :: rest')

/-- A dict `{key(x): index}` over an enumerated list, as the combiner's
`b1` (line 102) and `b3` (line 112) comprehensions build it. -/
def idxDict {α : Type} (key : α → ℤ) (l : List α) : List (ℤ × ℤ) :=
  pyDict ((withIdx l).map (fun p => (key p.2, (p.1 : ℤ))))

/-- A dict `{key(x): index + max(b.values()) + 1}` over an enumerated list,
as the combiner's `b2` (line 104) and `b4` (lines 113-116) comprehensions
build it.  The `max(...)` in the source is evaluated inside the
comprehension body, hence only when the iterated list is nonempty; on an
empty `b` with a nonempty list Python raises ValueError (`maxEmpty`). -/
def shiftedIdxDict {α : Type} (key : α → ℤ) (b : List (ℤ × ℤ)) (l : List α) :
    Except CombineErr (List (ℤ × ℤ)) :=
  if l.isEmpty then .ok []
  else
    match maxList (b.map Prod.snd) with
    | none => .error .maxEmpty
    | some mx =>
        .ok (pyDict ((withIdx l).map (fun p => (key p.2, (p.1 : ℤ) + mx + 1))))

/-- The category-name-to-id dict of a collection (`d1_categories` and
`d2_categories` of merge_only_coco.py lines 72-73). -/
def catDict (d : MColl) : List (String × ℤ) :=
  pyDict (d.categories.map (fun c => (c.name, c.id)))

/-- `combine` (merge_only_coco.py lines 36-133), modelled on the two
already-loaded collections (file I/O at lines 44-48/132-133 is the
caller's concern).  Mirrors the source order: duplicate-filename removal
(lines 50-69), category consistency check (lines 71-99), image id
renumbering `b1`/`b2` and in-place id rewriting (lines 101-109),
annotation id renumbering `b3`/`b4` and rewriting (lines 111-123),
concatenation with `d2`'s category list (lines 125-129). -/
def combine (d1 d2in : MColl) : Except CombineErr MColl :=
  let d2 := dropDups d1 d2in
  match checkCats (catDict d1) (catDict d2) with
  | .error e => .error e
  | .ok () =>
      let b1 := idxDict (fun img => img.id) d1.images
      match shiftedIdxDict (fun img => img.id) b1 d2.images with
      | .error e => .error e
      | .ok b2 =>
          let images1 := d1.images.map (fun img =>
            { img with id := (dfind b1 img.id).getD 0 })
          let images2 := d2.images.map (fun img =>
            { img with id := (dfind b2 img.id).getD 0 })
          let b3 := idxDict (fun ann => ann.id) d1.annotations
          match shiftedIdxDict (fun ann => ann.id) b3 d2.annotations with
          | .error e => .error e
          | .ok b4 =>
              match rewriteAnns b1 b3 d1.annotations with
              | .error e => .error e
              | .ok anns1 =>
                  match rewriteAnns b2 b4 d2.annotations with
                  | .error e => .error e
                  | .ok anns2 =>
                      .ok { images := images1 ++ images2,
                            annotations := anns1 ++ anns2,
                            categories := d2.categories }

end MergeDefs

instance {ε α : Type} [DecidableEq ε] [DecidableEq α] : DecidableEq (Except ε α) :=
  fun a b =>
    match a, b with
    | .error e, .error f =>
        if h : e = f then isTrue (by rw [h])
        else isFalse (by intro hh; cases hh; exact h rfl)
    | .error _, .ok _ => isFalse (by intro hh; cases hh)
    | .ok _, .error _ => isFalse (by intro hh; cases hh)
    | .ok x, .ok y =>
        if h : x = y then isTrue (by rw [h])
        else isFalse (by intro hh; cases hh; exact h rfl)

section MatcherProofs

/-- The dict `coco2_filename_to_id` built by `match_images_by_filename`. -/
def coco2FileDict (coco2 : Coco) : List (String × ℤ) :=
  pyDict (coco2.images.map (fun img => (img.file_name, img.id)))

theorem match_images_foldl (coco2 : Coco) (l : List CImage) :
    ∀ acc : List (ℤ × ℤ), (l.map (fun img => img.id)).Nodup →
      (∀ img ∈ l, img.id ∉ acc.map Prod.fst) →
      l.foldl (fun m img =>
          match dfind (coco2FileDict coco2) img.file_name with
          | some j => pyUpd m img.id j
          | none => m) acc
        = acc ++ l.filterMap (fun img =>
            (dfind (coco2FileDict coco2) img.file_name).map (fun j => (img.id, j))) := by
  induction l with
  | nil => intro acc _ _; simp
  | cons img rest ih =>
      intro acc hnd hfresh
      simp only [List.map_cons, List.nodup_cons] at hnd
      cases hf : dfind (coco2FileDict coco2) img.file_name with
      | none =>
          simp only [List.foldl_cons, hf, List.filterMap_cons]
          exact ih acc hnd.2 (fun i hi => hfresh i (List.mem_cons_of_mem _ hi))
      | some j =>
          simp only [List.foldl_cons, hf, List.filterMap_cons, Option.map_some]
          rw [pyUpd_of_not_mem_keys acc img.id j (hfresh img (by simp))]
          rw [ih (acc ++ [(img.id, j)]) hnd.2]
          · simp
          · intro i hi
            simp only [List.map_append, List.mem_append, List.map_cons,
              List.map_nil, List.mem_singleton, not_or]
            refine ⟨hfresh i (List.mem_cons_of_mem _ hi), ?_⟩
            intro hcontra
            exact hnd.1 (hcontra ▸ List.mem_map_of_mem (fun img => img.id) hi)

def coco9a : Coco :=
  { images := [⟨1, "a.jpg"⟩, ⟨2, "b.jpg"⟩], categories := [], annotations := [] }

def coco9b : Coco :=
  { images := [⟨10, "b.jpg"⟩, ⟨11, "c.jpg"⟩], categories := [], annotations := [] }

/-- C9: the image correspondence contains exactly one entry per collection-1
image whose file name also occurs in collection 2 (in collection-1 order,
mapped to the collection-2 id for that file name), and no entry for images
present in only one collection; in particular on the spec's example the map
is exactly `{2: 10}`. -/
theorem claim_C9_matcher_partial :
    (∀ coco1 coco2 : Coco, (coco1.images.map (fun img => img.id)).Nodup →
      match_images_by_filename coco1 coco2 =
        coco1.images.filterMap (fun img =>
          (dfind (coco2FileDict coco2) img.file_name).map (fun j => (img.id, j))))
    ∧ match_images_by_filename coco9a coco9b = [(2, 10)] := by
  constructor
  · intro coco1 coco2 hnd
    have := match_images_foldl coco2 coco1.images [] hnd (by simp)
    simpa [match_images_by_filename, coco2FileDict] using this
  · decide

/-- Witness for C9: the general characterization applied to the spec's
concrete example. -/
theorem claim_C9_matcher_partial_witness :
    match_images_by_filename coco9a coco9b =
      coco9a.images.filterMap (fun img =>
        (dfind (coco2FileDict coco9b) img.file_name).map (fun j => (img.id, j))) :=
  claim_C9_matcher_partial.1 coco9a coco9b (by decide)

end MatcherProofs

section CategoryCheck

theorem checkCatsOne_ok_iff (A B : List (String × ℤ)) :
    checkCatsOne A B = .ok () ↔ ∀ p ∈ A, dfind B p.1 = some p.2 := by
  induction A with
  | nil => simp [checkCatsOne]
  | cons hd rest ih =>
      obtain ⟨n, i⟩ := hd
      cases hf : dfind B n with
      | none =>
          simp only [checkCatsOne, hf]
          constructor
          · intro h; cases h
          · intro h
            have := h (n, i) (by simp)
            simp [hf] at this
      | some j =>
          by_cases hij : i = j
          · subst hij
            simp only [checkCatsOne, hf, ne_eq, not_true_eq_false, if_false]
            rw [ih]
            constructor
            · intro h p hp
              rcases List.mem_cons.1 hp with rfl | hp'
              · simpa using hf
              · exact h p hp'
            · intro h p hp
              exact h p (List.mem_cons_of_mem _ hp)
          · simp only [checkCatsOne, hf, ne_eq, hij, not_false_eq_true, if_pos]
            constructor
            · intro h; cases h
            · intro h
              have := h (n, i) (by simp)
              rw [hf] at this
              simp at this
              exact absurd this.symm hij

theorem checkCatsOne_shape (A B : List (String × ℤ)) :
    checkCatsOne A B = .ok () ∨ ∃ n, checkCatsOne A B = .error (.categoryMismatch n) := by
  induction A with
  | nil => left; rfl
  | cons hd rest ih =>
      obtain ⟨n, i⟩ := hd
      cases hf : dfind B n with
      | none => right; exact ⟨n, by simp [checkCatsOne, hf]⟩
      | some j =>
          by_cases hij : i = j
          · subst hij
            simpa [checkCatsOne, hf] using ih
          · right
            exact ⟨n, by simp [checkCatsOne, hf, hij]⟩

theorem checkCats_shape (A B : List (String × ℤ)) :
    checkCats A B = .ok () ∨ ∃ n, checkCats A B = .error (.categoryMismatch n) := by
  unfold checkCats
  rcases checkCatsOne_shape A B with h1 | ⟨n, h1⟩
  · rw [h1]
    exact checkCatsOne_shape B A
  · right
    exact ⟨n, by rw [h1]⟩

theorem checkCats_ok_iff (A B : List (String × ℤ))
    (hA : (A.map Prod.fst).Nodup) (hB : (B.map Prod.fst).Nodup) :
    checkCats A B = .ok () ↔ ∀ k, dfind A k = dfind B k := by
  constructor
  · intro h
    have h1 : checkCatsOne A B = .ok () := by
      unfold checkCats at h
      cases hc : checkCatsOne A B with
      | error e => rw [hc] at h; cases h
      | ok u => cases u; rfl
    have h2 : checkCatsOne B A = .ok () := by
      unfold checkCats at h
      rw [h1] at h
      exact h
    have hAB := (checkCatsOne_ok_iff A B).1 h1
    have hBA := (checkCatsOne_ok_iff B A).1 h2
    intro k
    cases ha : dfind A k with
    | some v =>
        have hmem : (k, v) ∈ A := dfind_mem A k v ha
        exact (hAB (k, v) hmem).symm
    | none =>
        cases hb : dfind B k with
        | none => rfl
        | some w =>
            have hmem : (k, w) ∈ B := dfind_mem B k w hb
            have := hBA (k, w) hmem
            rw [ha] at this
            cases this
  · intro h
    have hAB : ∀ p ∈ A, dfind B p.1 = some p.2 := by
      intro p hp
      have : dfind A p.1 = some p.2 :=
        dfind_of_mem_nodup A p.1 p.2 hA (by simpa using hp)
      rw [← h p.1]
      exact this
    have hBA : ∀ p ∈ B, dfind A p.1 = some p.2 := by
      intro p hp
      have : dfind B p.1 = some p.2 :=
        dfind_of_mem_nodup B p.1 p.2 hB (by simpa using hp)
      rw [h p.1]
      exact this
    unfold checkCats
    rw [(checkCatsOne_ok_iff A B).2 hAB]
    exact (checkCatsOne_ok_iff B A).2 hBA

theorem dropDups_categories (d1 d2 : MColl) :
    (dropDups d1 d2).categories = d2.categories := by
  unfold dropDups
  dsimp only
  split <;> rfl

/-- `catDict` of the duplicate-filtered second collection equals that of
the original: the filtering never touches categories. -/
theorem catDict_dropDups (d1 d2 : MColl) :
    catDict (dropDups d1 d2) = catDict d2 := by
  unfold catDict
  rw [dropDups_categories]

theorem combine_of_checkCats_error (d1 d2in : MColl) (e : CombineErr)
    (h : checkCats (catDict d1) (catDict d2in) = .error e) :
    combine d1 d2in = .error e := by
  simp only [combine]
  rw [catDict_dropDups, h]

end CategoryCheck

section ClaimC2

theorem mem_keys_catDict (d : MColl) (name : String) :
    name ∈ (catDict d).map Prod.fst ↔ ∃ cat ∈ d.categories, cat.name = name := by
  unfold catDict
  rw [mem_keys_pyDict]
  simp only [List.map_map, List.mem_map, Function.comp]

/-- C2: whenever some category name exists in only one of the two
collections, or is mapped to different ids by the two collections'
name-to-id dicts, `combine` fails with the CategoryMismatch condition (the
AssertionError of lines 78-99) and produces no output collection; being a
pure function returning `Except`, no partial rewriting is visible to the
caller. -/
theorem claim_C2_combine_category_fatal (d1 d2 : MColl)
    (h : ∃ name,
      ((∃ cat ∈ d1.categories, cat.name = name) ∧
        ¬ ∃ cat ∈ d2.categories, cat.name = name) ∨
      ((∃ cat ∈ d2.categories, cat.name = name) ∧
        ¬ ∃ cat ∈ d1.categories, cat.name = name) ∨
      dfind (catDict d1) name ≠ dfind (catDict d2) name) :
    (∃ name, combine d1 d2 = .error (.categoryMismatch name)) ∧
      ∀ c : MColl, combine d1 d2 ≠ .ok c := by
  have h' : ∃ name, dfind (catDict d1) name ≠ dfind (catDict d2) name := by
    obtain ⟨name, hname⟩ := h
    refine ⟨name, ?_⟩
    rcases hname with ⟨hin, hout⟩ | ⟨hin, hout⟩ | hneq
    · have h2 : dfind (catDict d2) name = none :=
        (dfind_eq_none_iff _ _).2 (fun hmem => hout ((mem_keys_catDict d2 name).1 hmem))
      have h1 : dfind (catDict d1) name ≠ none := by
        intro hnone
        exact ((dfind_eq_none_iff _ _).1 hnone) ((mem_keys_catDict d1 name).2 hin)
      rw [h2]
      exact h1
    · have h1 : dfind (catDict d1) name = none :=
        (dfind_eq_none_iff _ _).2 (fun hmem => hout ((mem_keys_catDict d1 name).1 hmem))
      have h2 : dfind (catDict d2) name ≠ none := by
        intro hnone
        exact ((dfind_eq_none_iff _ _).1 hnone) ((mem_keys_catDict d2 name).2 hin)
      rw [h1]
      exact fun hh => h2 hh.symm
    · exact hneq
  obtain ⟨name, hneq⟩ := h'
  have hnok : checkCats (catDict d1) (catDict d2) ≠ .ok () := by
    intro hok
    exact hneq ((checkCats_ok_iff _ _ (keys_nodup_pyDict _)
      (keys_nodup_pyDict _)).1 hok name)
  rcases checkCats_shape (catDict d1) (catDict d2) with hok | ⟨n, herr⟩
  · exact absurd hok hnok
  · have hcomb := combine_of_checkCats_error d1 d2 _ herr
    refine ⟨⟨n, hcomb⟩, ?_⟩
    intro c hc
    rw [hcomb] at hc
    cases hc

def mC2a : MColl :=
  { images := [⟨1, "x.jpg"⟩], annotations := [], categories := [⟨1, "dog"⟩] }

def mC2b : MColl :=
  { images := [⟨2, "y.jpg"⟩], annotations := [], categories := [⟨2, "dog"⟩] }

/-- Witness for C2: two one-category collections naming "dog" with ids 1
and 2 make `combine` fail with CategoryMismatch and produce no output. -/
theorem claim_C2_combine_category_fatal_witness :
    (∃ name, combine mC2a mC2b = .error (.categoryMismatch name)) ∧
      ∀ c : MColl, combine mC2a mC2b ≠ .ok c :=
  claim_C2_combine_category_fatal mC2a mC2b
    ⟨"dog", Or.inr (Or.inr (by decide))⟩

end ClaimC2

section ClaimC10

theorem pyDict_ne_nil {K V : Type} [DecidableEq K] (l : List (K × V))
    (h : l ≠ []) : pyDict l ≠ [] := by
  cases l with
  | nil => exact absurd rfl h
  | cons p rest =>
      intro hcontra
      have : p.1 ∈ (pyDict (p :: rest)).map Prod.fst :=
        (mem_keys_pyDict _ _).2 (by simp)
      rw [hcontra] at this
      simp at this

theorem dropDups_of_disjoint (d1 d2 : MColl)
    (h : ∀ n ∈ d2.images.map (fun img => img.file_name),
      n ∉ d1.images.map (fun img => img.file_name)) :
    dropDups d1 d2 = d2 := by
  unfold dropDups
  dsimp only
  have hdup : (d1.images.map (fun img => img.file_name)).filter
      (fun n => decide (n ∈ d2.images.map (fun img => img.file_name))) = [] := by
    rw [List.filter_eq_nil_iff]
    intro a ha
    simp only [decide_eq_true_eq]
    intro hmem
    exact h a hmem ha
  rw [hdup]
  simp

def mC10a : MColl :=
  { images := [], annotations := [], categories := [⟨1, "dog"⟩] }

def mC10b : MColl :=
  { images := [], annotations := [], categories := [⟨1, "dog"⟩] }

/-- Counterexample to C10 as stated: the "namely any pair where collection
1 has an empty image list or an empty annotation list" gloss fails when
collection 2's corresponding lists are empty as well — there `combine`
succeeds (`max` is never evaluated inside an empty dict comprehension), so
not every such pair makes the operation fail. -/
theorem claim_C10_cex :
    mC10a.images = [] ∧ mC10a.annotations = [] ∧
      catDict mC10a = catDict mC10b ∧
      combine mC10a mC10b =
        .ok { images := [], annotations := [], categories := [⟨1, "dog"⟩] } := by
  refine ⟨rfl, rfl, rfl, ?_⟩
  decide

/-- C10 (amended): for category-consistent collections with no duplicate
file names across them, `combine` fails with the unguarded-`max` ValueError
(not a CategoryMismatch) whenever collection 1's image list is empty while
collection 2's is not, and likewise whenever collection 1's annotation
list is empty while collection 2's is not (with collection 1's image list
nonempty so that the image stage passes). -/
theorem claim_C10_empty_max_failure (d1 d2 : MColl)
    (hcats : ∀ k, dfind (catDict d1) k = dfind (catDict d2) k)
    (hdisj : ∀ n ∈ d2.images.map (fun img => img.file_name),
      n ∉ d1.images.map (fun img => img.file_name)) :
    (d1.images = [] → d2.images ≠ [] → combine d1 d2 = .error .maxEmpty) ∧
    (d1.images ≠ [] → d1.annotations = [] → d2.annotations ≠ [] →
      combine d1 d2 = .error .maxEmpty) := by
  have hD2 : dropDups d1 d2 = d2 := dropDups_of_disjoint d1 d2 hdisj
  have hok : checkCats (catDict d1) (catDict d2) = .ok () :=
    (checkCats_ok_iff _ _ (keys_nodup_pyDict _) (keys_nodup_pyDict _)).2 hcats
  constructor
  · intro h1 h2
    have hb1 : idxDict (fun img => img.id) d1.images = [] := by
      simp [idxDict, h1, withIdx, withIdxAux, pyDict]
    have hb2 : shiftedIdxDict (fun img => img.id)
        (idxDict (fun img => img.id) d1.images) d2.images = .error .maxEmpty := by
      unfold shiftedIdxDict
      rw [List.isEmpty_eq_false.2 h2, hb1]
      simp [maxList]
    simp only [combine, hD2, catDict_dropDups, hok, hb2]
  · intro h1 h1a h2a
    have hb1ne : idxDict (fun img => img.id) d1.images ≠ [] := by
      unfold idxDict
      apply pyDict_ne_nil
      intro hcontra
      rw [List.map_eq_nil_iff] at hcontra
      cases hw : withIdx d1.images with
      | nil =>
          cases himg : d1.images with
          | nil => exact h1 himg
          | cons a rest => rw [himg] at hw; simp [withIdx, withIdxAux] at hw
      | cons p rest => rw [hw] at hcontra; cases hcontra
    obtain ⟨b2, hb2⟩ : ∃ b2, shiftedIdxDict (fun img => img.id)
        (idxDict (fun img => img.id) d1.images) d2.images = .ok b2 := by
      unfold shiftedIdxDict
      by_cases he : d2.images.isEmpty
      · exact ⟨[], by rw [he]; rfl⟩
      · rw [Bool.eq_false_iff.2 he]
        obtain ⟨mx, hmx⟩ := maxList_isSome
          ((idxDict (fun img => img.id) d1.images).map Prod.snd)
          (by simpa using hb1ne)
        rw [hmx]
        exact ⟨_, rfl⟩
    have hb3 : idxDict (fun ann => ann.id) d1.annotations = [] := by
      simp [idxDict, h1a, withIdx, withIdxAux, pyDict]
    have hb4 : shiftedIdxDict (fun ann => ann.id)
        (idxDict (fun ann => ann.id) d1.annotations) d2.annotations
        = .error .maxEmpty := by
      unfold shiftedIdxDict
      rw [List.isEmpty_eq_false.2 h2a, hb3]
      simp [maxList]
    simp only [combine, hD2, catDict_dropDups, hok, hb2, hb4]

def mC10c : MColl :=
  { images := [], annotations := [], categories := [⟨1, "dog"⟩] }

def mC10d : MColl :=
  { images := [⟨4, "z.jpg"⟩], annotations := [], categories := [⟨1, "dog"⟩] }

/-- Witness for the amended C10: an empty collection 1 combined with a
one-image collection 2 (consistent categories, disjoint file names) fails
with the unguarded-`max` error. -/
theorem claim_C10_empty_max_failure_witness :
    combine mC10c mC10d = .error .maxEmpty :=
  (claim_C10_empty_max_failure mC10c mC10d (fun _ => rfl)
    (by decide)).1 rfl (by decide)

end ClaimC10

section CombineInversion

/-- The image ids removed from collection 2 by the duplicate-filename pass,
expressed directly: ids of collection-2 images whose file name occurs in
collection 1. -/
def removedIdsSpec (d1 d2 : MColl) : List ℤ :=
  (d2.images.filter (fun img =>
    decide (img.file_name ∈ d1.images.map (fun i => i.file_name)))).map
    (fun img => img.id)

theorem mem_dupFilter (d1 d2 : MColl) (n : String) :
    n ∈ (d1.images.map (fun img => img.file_name)).filter
        (fun m => decide (m ∈ d2.images.map (fun img => img.file_name)))
      ↔ n ∈ d1.images.map (fun img => img.file_name) ∧
        n ∈ d2.images.map (fun img => img.file_name) := by
  simp [List.mem_filter]

theorem dropDups_images (d1 d2 : MColl) :
    (dropDups d1 d2).images = d2.images.filter
      (fun img => decide (img.file_name ∉ d1.images.map (fun i => i.file_name))) := by
  unfold dropDups
  dsimp only
  by_cases hdup : ((d1.images.map (fun img => img.file_name)).filter
      (fun m => decide (m ∈ d2.images.map (fun img => img.file_name)))).isEmpty
  · rw [if_pos hdup]
    rw [List.isEmpty_iff] at hdup
    have hnone : ∀ img ∈ d2.images,
        img.file_name ∉ d1.images.map (fun i => i.file_name) := by
      intro img hmem hcontra
      have : img.file_name ∈ (d1.images.map (fun img => img.file_name)).filter
          (fun m => decide (m ∈ d2.images.map (fun img => img.file_name))) :=
        (mem_dupFilter d1 d2 _).2 ⟨hcontra, List.mem_map_of_mem _ hmem⟩
      rw [hdup] at this
      cases this
    rw [List.filter_eq_self.2 (fun img hmem => by
      simpa using hnone img hmem)]
  · rw [if_neg hdup]
    dsimp only
    apply List.filter_congr
    intro img hmem
    have him2 : img.file_name ∈ d2.images.map (fun i => i.file_name) :=
      List.mem_map_of_mem _ hmem
    simp only [decide_eq_decide, mem_dupFilter]
    constructor
    · intro hnin hcontra
      exact hnin ⟨hcontra, him2⟩
    · intro hnin hcontra
      exact hnin hcontra.1

theorem dropDups_anns (d1 d2 : MColl) :
    (dropDups d1 d2).annotations = d2.annotations.filter
      (fun ann => decide (ann.image_id ∉ removedIdsSpec d1 d2)) := by
  unfold dropDups
  dsimp only
  by_cases hdup : ((d1.images.map (fun img => img.file_name)).filter
      (fun m => decide (m ∈ d2.images.map (fun img => img.file_name)))).isEmpty
  · rw [if_pos hdup]
    rw [List.isEmpty_iff] at hdup
    have hnone : ∀ img ∈ d2.images,
        img.file_name ∉ d1.images.map (fun i => i.file_name) := by
      intro img hmem hcontra
      have : img.file_name ∈ (d1.images.map (fun img => img.file_name)).filter
          (fun m => decide (m ∈ d2.images.map (fun img => img.file_name))) :=
        (mem_dupFilter d1 d2 _).2 ⟨hcontra, List.mem_map_of_mem _ hmem⟩
      rw [hdup] at this
      cases this
    have hrem : removedIdsSpec d1 d2 = [] := by
      unfold removedIdsSpec
      rw [List.filter_eq_nil_iff.2 (fun img hmem => by
        simpa using hnone img hmem)]
      rfl
    rw [List.filter_eq_self.2 (fun ann _ => by simp [hrem])]
  · rw [if_neg hdup]
    dsimp only
    have hids : ((d2.images.filter (fun img =>
        decide (img.file_name ∈ (d1.images.map (fun img => img.file_name)).filter
          (fun m => decide (m ∈ d2.images.map (fun img => img.file_name)))))).map
          (fun img => img.id))
        = removedIdsSpec d1 d2 := by
      unfold removedIdsSpec
      congr 1
      apply List.filter_congr
      intro img hmem
      have him2 : img.file_name ∈ d2.images.map (fun i => i.file_name) :=
        List.mem_map_of_mem _ hmem
      simp only [decide_eq_decide, mem_dupFilter]
      constructor
      · intro hc; exact hc.1
      · intro hc; exact ⟨hc, him2⟩
    rw [hids]

theorem rewriteAnns_ok (b bid : List (ℤ × ℤ)) (l : List MAnn) (l' : List MAnn)
    (h : rewriteAnns b bid l = .ok l') :
    (∀ a ∈ l, ∃ v, dfind b a.image_id = some v) ∧
    l' = l.map (fun a => { a with
      id := (dfind bid a.id).getD 0,
      image_id := (dfind b a.image_id).getD 0 }) := by
  induction l generalizing l' with
  | nil =>
      simp only [rewriteAnns] at h
      cases h
      exact ⟨by simp, by simp⟩
  | cons a rest ih =>
      simp only [rewriteAnns] at h
      cases hf : dfind b a.image_id with
      | none => rw [hf] at h; cases h
      | some v =>
          rw [hf] at h
          cases hr : rewriteAnns b bid rest with
          | error e => rw [hr] at h; cases h
          | ok rest' =>
              rw [hr] at h
              cases h
              obtain ⟨hall, heq⟩ := ih rest' hr
              constructor
              · intro x hx
                rcases List.mem_cons.1 hx with rfl | hx'
                · exact ⟨v, hf⟩
                · exact hall x hx'
              · simp only [List.map_cons, hf, Option.getD_some]
                rw [← heq]

theorem rewriteAnns_nil_left (bid : List (ℤ × ℤ)) (l : List MAnn)
    (l' : List MAnn) (h : rewriteAnns [] bid l = .ok l') :
    l = [] ∧ l' = [] := by
  obtain ⟨hall, heq⟩ := rewriteAnns_ok [] bid l l' h
  cases l with
  | nil => exact ⟨rfl, by simpa using heq⟩
  | cons a rest =>
      obtain ⟨v, hv⟩ := hall a (by simp)
      simp [dfind] at hv

theorem shiftedIdxDict_ok_inv {α : Type} (key : α → ℤ) (b : List (ℤ × ℤ))
    (l : List α) (b' : List (ℤ × ℤ)) (h : shiftedIdxDict key b l = .ok b') :
    (l = [] ∧ b' = []) ∨
    (l ≠ [] ∧ ∃ mx, maxList (b.map Prod.snd) = some mx ∧
      b' = pyDict ((withIdx l).map (fun p => (key p.2, (p.1 : ℤ) + mx + 1)))) := by
  unfold shiftedIdxDict at h
  by_cases he : l.isEmpty
  · rw [if_pos he] at h
    cases h
    exact Or.inl ⟨List.isEmpty_iff.1 he, rfl⟩
  · rw [if_neg he] at h
    cases hm : maxList (b.map Prod.snd) with
    | none => rw [hm] at h; cases h
    | some mx =>
        rw [hm] at h
        cases h
        exact Or.inr ⟨fun hc => he (by simp [hc]), mx, rfl, rfl⟩

theorem combine_ok_inv (d1 d2in c : MColl) (h : combine d1 d2in = .ok c) :
    ∃ b2 b4 anns1 anns2,
      checkCats (catDict d1) (catDict d2in) = .ok () ∧
      shiftedIdxDict (fun img => img.id) (idxDict (fun img => img.id) d1.images)
        (dropDups d1 d2in).images = .ok b2 ∧
      shiftedIdxDict (fun ann => ann.id) (idxDict (fun ann => ann.id) d1.annotations)
        (dropDups d1 d2in).annotations = .ok b4 ∧
      rewriteAnns (idxDict (fun img => img.id) d1.images)
        (idxDict (fun ann => ann.id) d1.annotations) d1.annotations = .ok anns1 ∧
      rewriteAnns b2 b4 (dropDups d1 d2in).annotations = .ok anns2 ∧
      c = { images :=
              d1.images.map (fun img =>
                { img with id :=
                    (dfind (idxDict (fun img => img.id) d1.images) img.id).getD 0 })
              ++ (dropDups d1 d2in).images.map (fun img =>
                { img with id := (dfind b2 img.id).getD 0 }),
            annotations := anns1 ++ anns2,
            categories := (dropDups d1 d2in).categories } := by
  simp only [combine, catDict_dropDups] at h
  cases hcc : checkCats (catDict d1) (catDict d2in) with
  | error e => simp only [hcc] at h; exact Except.noConfusion h
  | ok u =>
      cases u
      simp only [hcc] at h
      cases hb2 : shiftedIdxDict (fun img => img.id)
          (idxDict (fun img => img.id) d1.images) (dropDups d1 d2in).images with
      | error e => simp only [hb2] at h; exact Except.noConfusion h
      | ok b2 =>
          simp only [hb2] at h
          cases hb4 : shiftedIdxDict (fun ann => ann.id)
              (idxDict (fun ann => ann.id) d1.annotations)
              (dropDups d1 d2in).annotations with
          | error e => simp only [hb4] at h; exact Except.noConfusion h
          | ok b4 =>
              simp only [hb4] at h
              cases ha1 : rewriteAnns (idxDict (fun img => img.id) d1.images)
                  (idxDict (fun ann => ann.id) d1.annotations) d1.annotations with
              | error e => simp only [ha1] at h; exact Except.noConfusion h
              | ok anns1 =>
                  simp only [ha1] at h
                  cases ha2 : rewriteAnns b2 b4 (dropDups d1 d2in).annotations with
                  | error e => simp only [ha2] at h; exact Except.noConfusion h
                  | ok anns2 =>
                      simp only [ha2, Except.ok.injEq] at h
                      refine ⟨b2, b4, anns1, anns2, rfl, rfl, rfl, rfl, ?_, h.symm⟩
                      exact ha2

end CombineInversion

section ClaimC4

theorem map_file_name_update (l : List MImage) (f : MImage → ℤ) :
    (l.map (fun img => { img with id := f img })).map (fun i => i.file_name)
      = l.map (fun i => i.file_name) := by
  rw [List.map_map]
  rfl

theorem map_category_id_update (l : List MAnn) (f g : MAnn → ℤ) :
    (l.map (fun a => { a with id := f a, image_id := g a })).map
        (fun a => a.category_id)
      = l.map (fun a => a.category_id) := by
  rw [List.map_map]
  rfl

/-- C4: when collection 2 holds an image whose file name equals that of a
collection-1 image and `combine` succeeds, the combined image list carries
exactly collection 1's file names followed by those of the collection-2
images whose names do not occur in collection 1 (so every collection-2
duplicate is gone and collection 1's copy is retained), the combined
annotations carry exactly collection 1's payloads followed by those of the
collection-2 annotations not referencing a removed image, and the
duplicate image's id is among the removed ids (so its annotations are all
filtered out). -/
theorem claim_C4_dup_filename_removal (d1 d2in c : MColl) (img1 img2 : MImage)
    (h : combine d1 d2in = .ok c)
    (h1 : img1 ∈ d1.images) (h2 : img2 ∈ d2in.images)
    (hname : img2.file_name = img1.file_name) :
    (c.images.map (fun i => i.file_name)
      = d1.images.map (fun i => i.file_name)
        ++ (d2in.images.filter (fun i =>
            decide (i.file_name ∉ d1.images.map (fun j => j.file_name)))).map
          (fun i => i.file_name)) ∧
    img2.file_name ∉ ((dropDups d1 d2in).images.map (fun i => i.file_name)) ∧
    img2.file_name ∈ c.images.map (fun i => i.file_name) ∧
    (c.annotations.map (fun a => a.category_id)
      = d1.annotations.map (fun a => a.category_id)
        ++ (d2in.annotations.filter (fun a =>
            decide (a.image_id ∉ removedIdsSpec d1 d2in))).map
          (fun a => a.category_id)) ∧
    img2.id ∈ removedIdsSpec d1 d2in := by
  obtain ⟨b2, b4, anns1, anns2, hcc, hb2, hb4, ha1, ha2, hc⟩ :=
    combine_ok_inv d1 d2in c h
  have hname1 : img2.file_name ∈ d1.images.map (fun j => j.file_name) := by
    rw [hname]
    exact List.mem_map_of_mem _ h1
  have himg : c.images.map (fun i => i.file_name)
      = d1.images.map (fun i => i.file_name)
        ++ (d2in.images.filter (fun i =>
            decide (i.file_name ∉ d1.images.map (fun j => j.file_name)))).map
          (fun i => i.file_name) := by
    rw [hc]
    dsimp only
    rw [List.map_append, map_file_name_update, map_file_name_update,
      dropDups_images]
  refine ⟨himg, ?_, ?_, ?_, ?_⟩
  · rw [dropDups_images]
    intro hmem
    obtain ⟨img', hmem', heq'⟩ := List.mem_map.1 hmem
    have := (List.mem_filter.1 hmem').2
    rw [heq'] at this
    simp only [decide_eq_true_eq] at this
    exact this hname1
  · rw [himg]
    exact List.mem_append_left _ hname1
  · rw [hc]
    dsimp only
    rw [List.map_append]
    obtain ⟨_, heq1⟩ := rewriteAnns_ok _ _ _ _ ha1
    obtain ⟨_, heq2⟩ := rewriteAnns_ok _ _ _ _ ha2
    rw [heq1, heq2, map_category_id_update, map_category_id_update,
      dropDups_anns]
  · unfold removedIdsSpec
    refine List.mem_map.2 ⟨img2, ?_, rfl⟩
    rw [List.mem_filter]
    exact ⟨h2, by simpa using hname1⟩

def mC4a : MColl :=
  { images := [⟨3, "a.jpg"⟩], annotations := [⟨10, 3, 1⟩],
    categories := [⟨1, "dog"⟩] }

def mC4b : MColl :=
  { images := [⟨7, "a.jpg"⟩, ⟨9, "c.jpg"⟩],
    annotations := [⟨30, 7, 1⟩, ⟨31, 9, 1⟩],
    categories := [⟨1, "dog"⟩] }

/-- Witness for C4: collection 2's image "a.jpg" duplicates collection 1's;
after combining, its record and its annotation are gone while collection
1's are kept. -/
theorem claim_C4_dup_filename_removal_witness :
    (combine mC4a mC4b =
        .ok { images := [⟨0, "a.jpg"⟩, ⟨1, "c.jpg"⟩],
              annotations := [⟨0, 0, 1⟩, ⟨1, 1, 1⟩],
              categories := [⟨1, "dog"⟩] }) ∧
      "a.jpg" ∉ ((dropDups mC4a mC4b).images.map (fun i => i.file_name)) := by
  refine ⟨by decide, ?_⟩
  have := (claim_C4_dup_filename_removal mC4a mC4b
      { images := [⟨0, "a.jpg"⟩, ⟨1, "c.jpg"⟩],
        annotations := [⟨0, 0, 1⟩, ⟨1, 1, 1⟩],
        categories := [⟨1, "dog"⟩] }
      ⟨3, "a.jpg"⟩ ⟨7, "a.jpg"⟩ (by decide) (by decide) (by decide) rfl).2.1
  simpa using this

end ClaimC4

section ClaimC3

theorem idxDict_eq_assoc {α : Type} (key : α → ℤ) (l : List α)
    (h : (l.map key).Nodup) :
    idxDict key l = (withIdx l).map (fun p => (key p.2, (p.1 : ℤ))) := by
  unfold idxDict
  apply pyDict_eq_self
  rw [withIdx, assoc_withIdx_keys]
  exact h

theorem idxDict_analysis {α : Type} (key : α → ℤ) (l : List α)
    (h : (l.map key).Nodup) :
    l.map (fun x => (dfind (idxDict key l) (key x)).getD 0)
      = (withIdx l).map (fun p => (p.1 : ℤ)) ∧
    (idxDict key l).map Prod.snd = (withIdx l).map (fun p => (p.1 : ℤ)) ∧
    ((withIdx l).map (fun p => (p.1 : ℤ))).Nodup := by
  have hassoc := idxDict_eq_assoc key l h
  refine ⟨?_, ?_, ?_⟩
  · rw [hassoc]
    simpa [withIdx] using
      dfind_assoc_withIdx key (fun i => (i : ℤ)) 0 l 0 h
  · rw [hassoc, List.map_map]
    rfl
  · exact nodup_vals_withIdx (fun i => (i : ℤ))
      (fun a b hab => Nat.cast_injective hab) l 0

theorem idxDict_nil {α : Type} (key : α → ℤ) :
    idxDict key ([] : List α) = [] := by
  simp [idxDict, withIdx, withIdxAux, pyDict]

theorem shiftedIdxDict_analysis {α : Type} (key : α → ℤ) (l1 l2 : List α)
    (b2 : List (ℤ × ℤ))
    (h1 : (l1.map key).Nodup) (h2 : (l2.map key).Nodup)
    (hb2 : shiftedIdxDict key (idxDict key l1) l2 = .ok b2) :
    l2.map (fun x => (dfind b2 (key x)).getD 0) = b2.map Prod.snd ∧
    (b2.map Prod.snd).Nodup ∧
    ∀ x ∈ (withIdx l1).map (fun p => (p.1 : ℤ)),
      ∀ y ∈ b2.map Prod.snd, x ≠ y := by
  rcases shiftedIdxDict_ok_inv key (idxDict key l1) l2 b2 hb2 with
    ⟨hl2, hb2nil⟩ | ⟨hl2ne, mx, hmx, hb2eq⟩
  · subst hl2
    subst hb2nil
    simp
  · have hl1ne : l1 ≠ [] := by
      intro hl1
      rw [hl1, idxDict_nil] at hmx
      simp [maxList] at hmx
    have hvals1 : (idxDict key l1).map Prod.snd
        = (withIdx l1).map (fun p => (p.1 : ℤ)) :=
      (idxDict_analysis key l1 h1).2.1
    have hmxval : mx = (l1.length : ℤ) - 1 := by
      rw [hvals1] at hmx
      rw [withIdx] at hmx
      rw [maxList_withIdx l1 0 hl1ne] at hmx
      simp at hmx
      omega
    have hb2assoc : b2 = (withIdx l2).map
        (fun p => (key p.2, (p.1 : ℤ) + mx + 1)) := by
      rw [hb2eq]
      apply pyDict_eq_self
      have hkeys := assoc_withIdx_keys key (fun i => (i : ℤ) + mx + 1) l2 0
      rw [withIdx]
      rw [hkeys]
      exact h2
    have hsnd : b2.map Prod.snd
        = (withIdx l2).map (fun p => (p.1 : ℤ) + mx + 1) := by
      rw [hb2assoc, List.map_map]
      rfl
    refine ⟨?_, ?_, ?_⟩
    · rw [hb2assoc]
      have hda := dfind_assoc_withIdx key (fun i => (i : ℤ) + mx + 1) 0 l2 0 h2
      rw [List.map_map]
      simpa [withIdx, Function.comp] using hda
    · rw [hsnd]
      refine nodup_vals_withIdx (fun i => (i : ℤ) + mx + 1) ?_ l2 0
      intro a b hab
      dsimp only at hab
      have : (a : ℤ) = (b : ℤ) := by omega
      exact_mod_cast this
    · intro x hx y hy
      rw [withIdx] at hx
      obtain ⟨i, _, hilt, hxi⟩ := mem_vals_withIdx (fun i => (i : ℤ)) l1 0 x hx
      rw [hsnd, withIdx] at hy
      obtain ⟨j, _, _, hyj⟩ :=
        mem_vals_withIdx (fun i => (i : ℤ) + mx + 1) l2 0 y hy
      subst hxi
      subst hyj
      subst hmxval
      have hcast : (i : ℤ) < (l1.length : ℤ) := by
        exact_mod_cast (by omega : i < l1.length)
      intro hcontra
      omega

/-- C3: on name- and id-consistent inputs satisfying the data model's
per-collection identifier uniqueness, a successful `combine` yields unique
image ids, unique annotation ids, and annotation image references that all
resolve within the combined image list. -/
theorem claim_C3_combine_invariants (d1 d2in c : MColl)
    (h : combine d1 d2in = .ok c)
    (h1i : (d1.images.map (fun img => img.id)).Nodup)
    (h2i : (d2in.images.map (fun img => img.id)).Nodup)
    (h1a : (d1.annotations.map (fun a => a.id)).Nodup)
    (h2a : (d2in.annotations.map (fun a => a.id)).Nodup) :
    (c.images.map (fun img => img.id)).Nodup ∧
    (c.annotations.map (fun a => a.id)).Nodup ∧
    ∀ a ∈ c.annotations, a.image_id ∈ c.images.map (fun img => img.id) := by
  obtain ⟨b2, b4, anns1, anns2, hcc, hb2, hb4, ha1, ha2, hc⟩ :=
    combine_ok_inv d1 d2in c h
  have hD2i : ((dropDups d1 d2in).images.map (fun img => img.id)).Nodup := by
    rw [dropDups_images]
    exact h2i.sublist ((List.filter_sublist _).map _)
  have hD2a : ((dropDups d1 d2in).annotations.map (fun a => a.id)).Nodup := by
    rw [dropDups_anns]
    exact h2a.sublist ((List.filter_sublist _).map _)
  obtain ⟨hlook1, hvals1, hnd1⟩ :=
    idxDict_analysis (fun img : MImage => img.id) d1.images h1i
  obtain ⟨hlook2, hnd2, hdisj⟩ :=
    shiftedIdxDict_analysis (fun img : MImage => img.id) d1.images
      (dropDups d1 d2in).images b2 h1i hD2i hb2
  obtain ⟨hlookA1, hvalsA1, hndA1⟩ :=
    idxDict_analysis (fun a : MAnn => a.id) d1.annotations h1a
  obtain ⟨hlookA2, hndA2, hdisjA⟩ :=
    shiftedIdxDict_analysis (fun a : MAnn => a.id) d1.annotations
      (dropDups d1 d2in).annotations b4 h1a hD2a hb4
  obtain ⟨hfk1, heq1⟩ := rewriteAnns_ok _ _ _ _ ha1
  obtain ⟨hfk2, heq2⟩ := rewriteAnns_ok _ _ _ _ ha2
  have himgids : c.images.map (fun img => img.id)
      = (withIdx d1.images).map (fun p => (p.1 : ℤ)) ++ b2.map Prod.snd := by
    rw [hc]
    dsimp only
    rw [List.map_append]
    refine congrArg₂ (fun a b => a ++ b) ?_ ?_
    · rw [List.map_map]
      exact hlook1
    · rw [List.map_map]
      exact hlook2
  have hannids : c.annotations.map (fun a => a.id)
      = (withIdx d1.annotations).map (fun p => (p.1 : ℤ)) ++ b4.map Prod.snd := by
    rw [hc]
    dsimp only
    rw [heq1, heq2, List.map_append]
    refine congrArg₂ (fun a b => a ++ b) ?_ ?_
    · rw [List.map_map]
      exact hlookA1
    · rw [List.map_map]
      exact hlookA2
  refine ⟨?_, ?_, ?_⟩
  · rw [himgids, List.nodup_append]
    refine ⟨hnd1, hnd2, ?_⟩
    intro x hx hx2
    exact hdisj x hx x hx2 rfl
  · rw [hannids, List.nodup_append]
    refine ⟨hndA1, hndA2, ?_⟩
    intro x hx hx2
    exact hdisjA x hx x hx2 rfl
  · intro a ha
    rw [hc] at ha
    dsimp only at ha
    rw [himgids]
    rcases List.mem_append.1 ha with ha' | ha'
    · rw [heq1] at ha'
      obtain ⟨a0, ha0, rfl⟩ := List.mem_map.1 ha'
      obtain ⟨v, hv⟩ := hfk1 a0 ha0
      dsimp only
      rw [hv, Option.getD_some]
      apply List.mem_append_left
      rw [← hvals1]
      exact dfind_snd_mem _ _ _ hv
    · rw [heq2] at ha'
      obtain ⟨a0, ha0, rfl⟩ := List.mem_map.1 ha'
      obtain ⟨v, hv⟩ := hfk2 a0 ha0
      dsimp only
      rw [hv, Option.getD_some]
      apply List.mem_append_right
      exact dfind_snd_mem _ _ _ hv

end ClaimC3

/-- The concrete result of combining `mC4a` and `mC4b`. -/
def mC3res : MColl :=
  { images := [⟨0, "a.jpg"⟩, ⟨1, "c.jpg"⟩],
    annotations := [⟨0, 0, 1⟩, ⟨1, 1, 1⟩],
    categories := [⟨1, "dog"⟩] }

/-- Witness for C3: the invariants hold on a concrete successful merge. -/
theorem claim_C3_combine_invariants_witness :
    (mC3res.images.map (fun img => img.id)).Nodup ∧
    (mC3res.annotations.map (fun a => a.id)).Nodup ∧
    ∀ a ∈ mC3res.annotations, a.image_id ∈ mC3res.images.map (fun img => img.id) :=
  claim_C3_combine_invariants mC4a mC4b mC3res (by decide) (by decide)
    (by decide) (by decide) (by decide)

section ClaimC1

theorem buildIndex_none :
    ∀ (l : List CAnn) (acc : List (ℤ × List CAnn)),
      (∃ a ∈ l, a.image_id = none) → buildIndex l acc = none := by
  intro l
  induction l with
  | nil =>
      rintro acc ⟨a, ha, _⟩
      cases ha
  | cons a rest ih =>
      rintro acc ⟨b, hb, hbad⟩
      rcases List.mem_cons.1 hb with rfl | hmem
      · simp only [buildIndex, hbad]
      · simp only [buildIndex]
        cases h : a.image_id with
        | none => rfl
        | some i => exact ih _ ⟨b, hmem, hbad⟩

theorem processAnns_none (coco1 : Coco) (thr : ℚ) (imap cmap : List (ℤ × ℤ))
    (cats1 cats2 : List (ℤ × String)) (idx : List (ℤ × List CAnn)) :
    ∀ l : List CAnn, (∃ a ∈ l, a.image_id = none) →
      processAnns coco1 thr imap cmap cats1 cats2 idx l = none := by
  intro l
  induction l with
  | nil =>
      rintro ⟨a, ha, _⟩
      cases ha
  | cons a1 rest ih =>
      rintro ⟨a, ha, hbad⟩
      rcases List.mem_cons.1 ha with rfl | hmem
      · simp only [processAnns, hbad]
      · have hrest : processAnns coco1 thr imap cmap cats1 cats2 idx rest = none :=
          ih ⟨a, hmem, hbad⟩
        cases h1 : a1.image_id with
        | none => simp only [processAnns, h1]
        | some iid1 =>
            simp only [processAnns, h1]
            cases h2 : dfind imap iid1 with
            | none => simp only [h2]; exact hrest
            | some iid2 =>
                simp only [h2]
                cases h3 : dfind idx iid2 with
                | none => simp only [h3]; exact hrest
                | some anns2 =>
                    simp only [h3]
                    cases h4 : a1.category_id with
                    | none => simp only [h4]
                    | some cid1 =>
                        simp only [h4]
                        cases h5 : dfind cats1 cid1 with
                        | none => simp only [h5]; exact hrest
                        | some catname1 =>
                            simp only [h5]
                            cases h6 : dfind cmap cid1 with
                            | none => simp only [h6]; exact hrest
                            | some expCid =>
                                simp only [h6]
                                cases h7 : a1.bbox with
                                | none => simp only [h7]
                                | some bb1 =>
                                    simp only [h7]
                                    cases h8 : innerLoop coco1 cats2 thr iid1
                                        catname1 expCid (toBox bb1) a1 anns2 with
                                    | none => simp only [h8]
                                    | some ms => simp only [h8, hrest]

/-- C1 (amended): a malformed annotation is not skipped; a record with a
missing `image_id` key on either side makes the whole comparison pass
abort with a KeyError (modelled as `none`) instead of returning a
mismatch list.  (Per-record skipping happens only for records whose image
or category merely has no counterpart.) -/
theorem claim_C1_malformed_aborts (coco1 coco2 : Coco) (thr : ℚ) :
    ((∃ a ∈ coco1.annotations, a.image_id = none) →
      compare_coco_annotations coco1 coco2 thr = none) ∧
    ((∃ a ∈ coco2.annotations, a.image_id = none) →
      compare_coco_annotations coco1 coco2 thr = none) := by
  constructor
  · intro hex
    simp only [compare_coco_annotations]
    cases hidx : buildIndex coco2.annotations [] with
    | none => rfl
    | some idx =>
        exact processAnns_none coco1 thr _ _ _ _ idx coco1.annotations hex
  · intro hex
    simp only [compare_coco_annotations]
    rw [buildIndex_none coco2.annotations [] hex]

def cocoB : Coco :=
  { images := [⟨5, "a.jpg"⟩],
    categories := [⟨7, "cat"⟩],
    annotations := [⟨some 5, some 9, some ⟨0, 0, 1, 2⟩⟩] }

def cocoC1bad : Coco :=
  { images := [⟨1, "a.jpg"⟩],
    categories := [⟨1, "cat"⟩],
    annotations := [⟨some 1, some 1, none⟩] }

/-- Counterexample to C1 as stated: `cocoC1bad`'s single annotation is
missing the `bbox` key while its image and category resolve through every
correspondence, so the claim predicts it is skipped and an (empty)
mismatch list returned; instead the pass aborts with a KeyError (`none`). -/
theorem claim_C1_cex :
    compare_coco_annotations cocoC1bad cocoB (7/10) = none := by decide

def cocoC1noimg : Coco :=
  { images := [⟨1, "a.jpg"⟩],
    categories := [⟨1, "cat"⟩],
    annotations := [⟨none, some 1, some ⟨0, 0, 1, 1⟩⟩] }

/-- Witness for the amended C1: an annotation missing `image_id` aborts
the pass. -/
theorem claim_C1_malformed_aborts_witness :
    compare_coco_annotations cocoC1noimg cocoB (7/10) = none :=
  (claim_C1_malformed_aborts cocoC1noimg cocoB (7/10)).1
    ⟨⟨none, some 1, some ⟨0, 0, 1, 1⟩⟩, by decide, rfl⟩

end ClaimC1

section CompareSoundness

theorem innerLoop_sound (coco1 : Coco) (cats2 : List (ℤ × String)) (thr : ℚ)
    (iid1 : ℤ) (catname1 : String) (expCid : ℤ) (box1 : Box) (a1 : CAnn) :
    ∀ (l : List CAnn) (ms : List Mismatch),
      innerLoop coco1 cats2 thr iid1 catname1 expCid box1 a1 l = some ms →
      ∀ m ∈ ms, m.ann1 = a1 ∧ m.box1 = box1 ∧
        ∃ bb2 cid2, m.ann2.bbox = some bb2 ∧ m.box2 = toBox bb2 ∧
          m.iou = calculate_iou box1 (toBox bb2) ∧ thr ≤ m.iou ∧
          m.ann2.category_id = some cid2 ∧ cid2 ≠ expCid := by
  intro l
  induction l with
  | nil =>
      intro ms h m hm
      simp only [innerLoop, Option.some.injEq] at h
      subst h
      cases hm
  | cons a2 rest ih =>
      intro ms h m hm
      cases hb : a2.bbox with
      | none =>
          simp only [innerLoop, hb] at h
          exact Option.noConfusion h
      | some bb2 =>
          simp only [innerLoop, hb] at h
          by_cases hiou : thr ≤ calculate_iou box1 (toBox bb2)
          · rw [if_pos hiou] at h
            cases hcid : a2.category_id with
            | none =>
                simp only [hcid] at h
                exact Option.noConfusion h
            | some cid2 =>
                simp only [hcid] at h
                by_cases hne : cid2 ≠ expCid
                · rw [if_pos hne] at h
                  cases hrec : innerLoop coco1 cats2 thr iid1 catname1 expCid
                      box1 a1 rest with
                  | none =>
                      simp only [hrec] at h
                      exact Option.noConfusion h
                  | some ms' =>
                      simp only [hrec, Option.some.injEq] at h
                      subst h
                      rcases List.mem_cons.1 hm with rfl | hm'
                      · exact ⟨rfl, rfl, bb2, cid2, hb, rfl, rfl, hiou, hcid, hne⟩
                      · exact ih ms' hrec m hm'
                · rw [if_neg hne] at h
                  exact ih ms h m hm
          · rw [if_neg hiou] at h
            exact ih ms h m hm

theorem processAnns_sound (coco1 : Coco) (thr : ℚ) (imap cmap : List (ℤ × ℤ))
    (cats1 cats2 : List (ℤ × String)) (idx : List (ℤ × List CAnn)) :
    ∀ (l : List CAnn) (L : List Mismatch),
      processAnns coco1 thr imap cmap cats1 cats2 idx l = some L →
      ∀ m ∈ L, ∃ cid1 expCid, m.ann1.category_id = some cid1 ∧
        dfind cmap cid1 = some expCid ∧
        (∃ bb1, m.ann1.bbox = some bb1 ∧ m.box1 = toBox bb1) ∧
        (∃ bb2 cid2, m.ann2.bbox = some bb2 ∧ m.box2 = toBox bb2 ∧
          m.iou = calculate_iou m.box1 (toBox bb2) ∧ thr ≤ m.iou ∧
          m.ann2.category_id = some cid2 ∧ cid2 ≠ expCid) := by
  intro l
  induction l with
  | nil =>
      intro L h m hm
      simp only [processAnns, Option.some.injEq] at h
      subst h
      cases hm
  | cons a1 rest ih =>
      intro L h m hm
      cases h1 : a1.image_id with
      | none =>
          simp only [processAnns, h1] at h
          exact Option.noConfusion h
      | some iid1 =>
          simp only [processAnns, h1] at h
          cases h2 : dfind imap iid1 with
          | none =>
              simp only [h2] at h
              exact ih L h m hm
          | some iid2 =>
              simp only [h2] at h
              cases h3 : dfind idx iid2 with
              | none =>
                  simp only [h3] at h
                  exact ih L h m hm
              | some anns2 =>
                  simp only [h3] at h
                  cases h4 : a1.category_id with
                  | none =>
                      simp only [h4] at h
                      exact Option.noConfusion h
                  | some cid1 =>
                      simp only [h4] at h
                      cases h5 : dfind cats1 cid1 with
                      | none =>
                          simp only [h5] at h
                          exact ih L h m hm
                      | some catname1 =>
                          simp only [h5] at h
                          cases h6 : dfind cmap cid1 with
                          | none =>
                              simp only [h6] at h
                              exact ih L h m hm
                          | some expCid =>
                              simp only [h6] at h
                              cases h7 : a1.bbox with
                              | none =>
                                  simp only [h7] at h
                                  exact Option.noConfusion h
                              | some bb1 =>
                                  simp only [h7] at h
                                  cases h8 : innerLoop coco1 cats2 thr iid1
                                      catname1 expCid (toBox bb1) a1 anns2 with
                                  | none =>
                                      simp only [h8] at h
                                      exact Option.noConfusion h
                                  | some ms =>
                                      simp only [h8] at h
                                      cases h9 : processAnns coco1 thr imap cmap
                                          cats1 cats2 idx rest with
                                      | none =>
                                          simp only [h9] at h
                                          exact Option.noConfusion h
                                      | some msr =>
                                          simp only [h9, Option.some.injEq] at h
                                          subst h
                                          rcases List.mem_append.1 hm with hm' | hm'
                                          · obtain ⟨hma1, hmb1, bb2, cid2, hab2,
                                              hbox2, hiou, hthr, hacid, hne⟩ :=
                                              innerLoop_sound coco1 cats2 thr iid1
                                                catname1 expCid (toBox bb1) a1
                                                anns2 ms h8 m hm'
                                            refine ⟨cid1, expCid, ?_, h6, ⟨bb1, ?_, hmb1⟩,
                                              bb2, cid2, hab2, hbox2, ?_, hthr, hacid, hne⟩
                                            · rw [hma1]; exact h4
                                            · rw [hma1]; exact h7
                                            · rw [hmb1]; exact hiou
                                          · exact ih msr h9 m hm'

theorem compare_sound (coco1 coco2 : Coco) (thr : ℚ) (L : List Mismatch)
    (h : compare_coco_annotations coco1 coco2 thr = some L) :
    ∀ m ∈ L, ∃ cid1 expCid, m.ann1.category_id = some cid1 ∧
      dfind (create_category_mapping coco1 coco2) cid1 = some expCid ∧
      (∃ bb1, m.ann1.bbox = some bb1 ∧ m.box1 = toBox bb1) ∧
      (∃ bb2 cid2, m.ann2.bbox = some bb2 ∧ m.box2 = toBox bb2 ∧
        m.iou = calculate_iou m.box1 (toBox bb2) ∧ thr ≤ m.iou ∧
        m.ann2.category_id = some cid2 ∧ cid2 ≠ expCid) := by
  simp only [compare_coco_annotations] at h
  cases hidx : buildIndex coco2.annotations [] with
  | none =>
      simp only [hidx] at h
      exact Option.noConfusion h
  | some idx =>
      simp only [hidx] at h
      exact processAnns_sound coco1 thr _ _ _ _ idx coco1.annotations L h

end CompareSoundness

section ClaimC6

/-- C6: every mismatch returned by `compare_coco_annotations` pairs
annotations whose categories differ under the category correspondence
(collection 2's category id differs from the image of collection 1's
category id under the map); hence a pair whose categories agree under the
correspondence never appears in the mismatch list. -/
theorem claim_C6_same_category_excluded (coco1 coco2 : Coco) (thr : ℚ)
    (L : List Mismatch) (m : Mismatch)
    (h : compare_coco_annotations coco1 coco2 thr = some L) (hm : m ∈ L) :
    ∃ cid1 expCid cid2, m.ann1.category_id = some cid1 ∧
      dfind (create_category_mapping coco1 coco2) cid1 = some expCid ∧
      m.ann2.category_id = some cid2 ∧ cid2 ≠ expCid := by
  obtain ⟨cid1, expCid, h1, h2, _, _, cid2, _, _, _, _, h3, h4⟩ :=
    compare_sound coco1 coco2 thr L h m hm
  exact ⟨cid1, expCid, cid2, h1, h2, h3, h4⟩

def cocoA : Coco :=
  { images := [⟨1, "a.jpg"⟩],
    categories := [⟨1, "cat"⟩],
    annotations := [⟨some 1, some 1, some ⟨0, 0, 1, 1⟩⟩] }

/-- IoU of the example boxes: `[0,0,1,1]` and `[0,0,1,2]` in corner form
overlap in area 1 with union 2. -/
theorem iou_example :
    calculate_iou ⟨0, 0, 1, 1⟩ ⟨0, 0, 1, 2⟩ = 1/2 := by
  rw [calculate_iou_eq]
  norm_num

/-- The single mismatch produced by comparing `cocoA` with `cocoB` at
threshold 1/2. -/
def mismatchEx : Mismatch :=
  { image_id := 1, image_filename := some "a.jpg",
    box1 := ⟨0, 0, 1, 1⟩, box2 := ⟨0, 0, 1, 2⟩, iou := 1/2,
    coco1_category := "cat", coco2_category := "Unknown",
    ann1 := ⟨some 1, some 1, some ⟨0, 0, 1, 1⟩⟩,
    ann2 := ⟨some 5, some 9, some ⟨0, 0, 1, 2⟩⟩ }

theorem compare_example_eval :
    compare_coco_annotations cocoA cocoB (1/2) = some [mismatchEx] := by
  simp only [compare_coco_annotations, match_images_by_filename,
    create_category_mapping, buildIndex, indexInsert, processAnns, innerLoop,
    pyDict, pyUpd, dfind, List.foldl, List.map, List.find?, cocoA, cocoB,
    mismatchEx]
  norm_num [innerLoop, toBox, iou_example, dfind]

/-- Witness for C6: the mismatch of the concrete example indeed carries
differing corresponded categories. -/
theorem claim_C6_same_category_excluded_witness :
    ∃ cid1 expCid cid2, mismatchEx.ann1.category_id = some cid1 ∧
      dfind (create_category_mapping cocoA cocoB) cid1 = some expCid ∧
      mismatchEx.ann2.category_id = some cid2 ∧ cid2 ≠ expCid :=
  claim_C6_same_category_excluded cocoA cocoB (1/2) [mismatchEx] mismatchEx
    compare_example_eval (by simp)

end ClaimC6

section CompareCompleteness

theorem dfind_indexInsert (d : List (ℤ × List CAnn)) (i : ℤ) (a : CAnn) (j : ℤ) :
    dfind (indexInsert d i a) j =
      if i = j then some ((dfind d i).getD [] ++ [a]) else dfind d j := by
  induction d with
  | nil =>
      by_cases hij : i = j <;> simp [indexInsert, dfind, hij]
  | cons hd rest ih =>
      obtain ⟨k, l⟩ := hd
      by_cases hki : k = i
      · subst hki
        by_cases hij : k = j
        · subst hij
          simp [indexInsert, dfind]
        · simp [indexInsert, dfind, hij]
      · simp only [indexInsert, if_neg hki]
        by_cases hkj : k = j
        · subst hkj
          have hij : ¬ i = k := fun hh => hki hh.symm
          simp [dfind, hij, hki]
        · simp only [dfind, if_neg hkj, ih]
          by_cases hij : i = j
          · subst hij
            simp [dfind, hki]
          · simp [hij]

theorem buildIndex_isSome :
    ∀ (l : List CAnn) (acc : List (ℤ × List CAnn)),
      (∀ a ∈ l, a.image_id ≠ none) → ∃ idx, buildIndex l acc = some idx := by
  intro l
  induction l with
  | nil => intro acc _; exact ⟨acc, rfl⟩
  | cons a rest ih =>
      intro acc hwf
      cases h : a.image_id with
      | none => exact absurd h (hwf a (by simp))
      | some i =>
          obtain ⟨idx, hidx⟩ :=
            ih (indexInsert acc i a) (fun b hb => hwf b (List.mem_cons_of_mem _ hb))
          refine ⟨idx, ?_⟩
          simp only [buildIndex, h]
          exact hidx

theorem buildIndex_mem :
    ∀ (l : List CAnn) (acc idx : List (ℤ × List CAnn)),
      buildIndex l acc = some idx → ∀ (i : ℤ) (x : CAnn),
        (x ∈ (dfind idx i).getD [] ↔
          x ∈ (dfind acc i).getD [] ∨ (x ∈ l ∧ x.image_id = some i)) := by
  intro l
  induction l with
  | nil =>
      intro acc idx h i x
      simp only [buildIndex, Option.some.injEq] at h
      subst h
      simp
  | cons a rest ih =>
      intro acc idx h i x
      cases ha : a.image_id with
      | none =>
          simp only [buildIndex, ha] at h
          exact Option.noConfusion h
      | some j =>
          simp only [buildIndex, ha] at h
          rw [ih (indexInsert acc j a) idx h i x]
          have hstep : x ∈ (dfind (indexInsert acc j a) i).getD [] ↔
              x ∈ (dfind acc i).getD [] ∨ (x = a ∧ j = i) := by
            rw [dfind_indexInsert]
            by_cases hij : j = i
            · subst hij
              simp [List.mem_append]
            · simp [hij]
          rw [hstep]
          constructor
          · rintro ((hacc | ⟨rfl, rfl⟩) | ⟨hrest, himg⟩)
            · exact Or.inl hacc
            · exact Or.inr ⟨List.mem_cons_self _ _, ha⟩
            · exact Or.inr ⟨List.mem_cons_of_mem _ hrest, himg⟩
          · rintro (hacc | ⟨hmem, himg⟩)
            · exact Or.inl (Or.inl hacc)
            · rcases List.mem_cons.1 hmem with rfl | hmem'
              · refine Or.inl (Or.inr ⟨rfl, ?_⟩)
                rw [ha] at himg
                exact (Option.some.injEq _ _ ▸ himg :)
              · exact Or.inr ⟨hmem', himg⟩

theorem buildIndex_lookup (l : List CAnn) (idx : List (ℤ × List CAnn))
    (h : buildIndex l [] = some idx) (a : CAnn) (i : ℤ)
    (ha : a ∈ l) (hai : a.image_id = some i) :
    ∃ anns2, dfind idx i = some anns2 ∧ a ∈ anns2 := by
  have hm := (buildIndex_mem l [] idx h i a).2 (Or.inr ⟨ha, hai⟩)
  cases hd : dfind idx i with
  | none => rw [hd] at hm; simp at hm
  | some anns2 =>
      rw [hd] at hm
      exact ⟨anns2, rfl, by simpa using hm⟩

theorem buildIndex_sub (l : List CAnn) (idx : List (ℤ × List CAnn))
    (h : buildIndex l [] = some idx) (i : ℤ) (anns2 : List CAnn)
    (hd : dfind idx i = some anns2) : ∀ a ∈ anns2, a ∈ l := by
  intro a ha
  have hm := (buildIndex_mem l [] idx h i a).1 (by rw [hd]; simpa using ha)
  rcases hm with hacc | ⟨hl, _⟩
  · simp [dfind] at hacc
  · exact hl

end CompareCompleteness

section CompareTotality

theorem innerLoop_total (coco1 : Coco) (cats2 : List (ℤ × String)) (thr : ℚ)
    (iid1 : ℤ) (catname1 : String) (expCid : ℤ) (box1 : Box) (a1 : CAnn) :
    ∀ l : List CAnn, (∀ a ∈ l, a.bbox ≠ none ∧ a.category_id ≠ none) →
      (innerLoop coco1 cats2 thr iid1 catname1 expCid box1 a1 l).isSome = true := by
  intro l
  induction l with
  | nil => intro _; rfl
  | cons a2 rest ih =>
      intro hwf
      have hrest := ih (fun a ha => hwf a (List.mem_cons_of_mem _ ha))
      obtain ⟨ms, hms⟩ := Option.isSome_iff_exists.1 hrest
      obtain ⟨hb, hc⟩ := hwf a2 (List.mem_cons_self _ _)
      cases hbb : a2.bbox with
      | none => exact absurd hbb hb
      | some bb2 =>
          simp only [innerLoop, hbb]
          by_cases hiou : thr ≤ calculate_iou box1 (toBox bb2)
          · rw [if_pos hiou]
            cases hcc : a2.category_id with
            | none => exact absurd hcc hc
            | some cid2 =>
                simp only [hcc]
                by_cases hne : cid2 ≠ expCid
                · rw [if_pos hne]
                  simp only [hms]
                  rfl
                · rw [if_neg hne]
                  exact hrest
          · rw [if_neg hiou]
            exact hrest

theorem processAnns_total (coco1 : Coco) (thr : ℚ) (imap cmap : List (ℤ × ℤ))
    (cats1 cats2 : List (ℤ × String)) (idx : List (ℤ × List CAnn))
    (hidx : ∀ (i : ℤ) (anns2 : List CAnn), dfind idx i = some anns2 →
      ∀ a ∈ anns2, a.bbox ≠ none ∧ a.category_id ≠ none) :
    ∀ l : List CAnn,
      (∀ a ∈ l, a.image_id ≠ none ∧ a.category_id ≠ none ∧ a.bbox ≠ none) →
      (processAnns coco1 thr imap cmap cats1 cats2 idx l).isSome = true := by
  intro l
  induction l with
  | nil => intro _; rfl
  | cons a1 rest ih =>
      intro hwf
      have hrest := ih (fun a ha => hwf a (List.mem_cons_of_mem _ ha))
      obtain ⟨L', hL'⟩ := Option.isSome_iff_exists.1 hrest
      obtain ⟨hi, hc, hb⟩ := hwf a1 (List.mem_cons_self _ _)
      cases h1 : a1.image_id with
      | none => exact absurd h1 hi
      | some iid1 =>
          simp only [processAnns, h1]
          cases h2 : dfind imap iid1 with
          | none => simp only [h2]; exact hrest
          | some iid2 =>
              simp only [h2]
              cases h3 : dfind idx iid2 with
              | none => simp only [h3]; exact hrest
              | some anns2 =>
                  simp only [h3]
                  cases h4 : a1.category_id with
                  | none => exact absurd h4 hc
                  | some cid1 =>
                      simp only [h4]
                      cases h5 : dfind cats1 cid1 with
                      | none => simp only [h5]; exact hrest
                      | some catname1 =>
                          simp only [h5]
                          cases h6 : dfind cmap cid1 with
                          | none => simp only [h6]; exact hrest
                          | some expCid =>
                              simp only [h6]
                              cases h7 : a1.bbox with
                              | none => exact absurd h7 hb
                              | some bb1 =>
                                  simp only [h7]
                                  have hinner := innerLoop_total coco1 cats2 thr
                                    iid1 catname1 expCid (toBox bb1) a1 anns2
                                    (hidx iid2 anns2 h3)
                                  obtain ⟨ms, hms⟩ :=
                                    Option.isSome_iff_exists.1 hinner
                                  simp only [hms, hL']
                                  rfl

end CompareTotality

section CompareMembership

theorem innerLoop_mem (coco1 : Coco) (cats2 : List (ℤ × String)) (thr : ℚ)
    (iid1 : ℤ) (catname1 : String) (expCid : ℤ) (box1 : Box) (a1 : CAnn) :
    ∀ (l : List CAnn) (ms : List Mismatch),
      innerLoop coco1 cats2 thr iid1 catname1 expCid box1 a1 l = some ms →
      ∀ a2 ∈ l, ∀ (bb2 : Bbox) (cid2 : ℤ), a2.bbox = some bb2 →
        thr ≤ calculate_iou box1 (toBox bb2) →
        a2.category_id = some cid2 → cid2 ≠ expCid →
        ∃ m ∈ ms, m.ann1 = a1 ∧ m.ann2 = a2 := by
  intro l
  induction l with
  | nil =>
      intro ms _ a2 ha2 _ _ _ _ _ _
      cases ha2
  | cons a2' rest ih =>
      intro ms h a2 ha2 bb2 cid2 hbb hiou hcid hne
      rcases List.mem_cons.1 ha2 with rfl | hmem
      · simp only [innerLoop, hbb] at h
        rw [if_pos hiou] at h
        simp only [hcid] at h
        rw [if_pos hne] at h
        cases hrec : innerLoop coco1 cats2 thr iid1 catname1 expCid box1 a1 rest with
        | none =>
            simp only [hrec] at h
            exact Option.noConfusion h
        | some ms' =>
            simp only [hrec, Option.some.injEq] at h
            subst h
            exact ⟨_, List.mem_cons_self _ _, rfl, rfl⟩
      · cases hbb' : a2'.bbox with
        | none =>
            simp only [innerLoop, hbb'] at h
            exact Option.noConfusion h
        | some bb2' =>
            simp only [innerLoop, hbb'] at h
            by_cases hiou' : thr ≤ calculate_iou box1 (toBox bb2')
            · rw [if_pos hiou'] at h
              cases hcid' : a2'.category_id with
              | none =>
                  simp only [hcid'] at h
                  exact Option.noConfusion h
              | some cid2' =>
                  simp only [hcid'] at h
                  by_cases hne' : cid2' ≠ expCid
                  · rw [if_pos hne'] at h
                    cases hrec : innerLoop coco1 cats2 thr iid1 catname1 expCid
                        box1 a1 rest with
                    | none =>
                        simp only [hrec] at h
                        exact Option.noConfusion h
                    | some ms' =>
                        simp only [hrec, Option.some.injEq] at h
                        subst h
                        obtain ⟨m, hm, hm1, hm2⟩ :=
                          ih ms' hrec a2 hmem bb2 cid2 hbb hiou hcid hne
                        exact ⟨m, List.mem_cons_of_mem _ hm, hm1, hm2⟩
                  · rw [if_neg hne'] at h
                    exact ih ms h a2 hmem bb2 cid2 hbb hiou hcid hne
            · rw [if_neg hiou'] at h
              exact ih ms h a2 hmem bb2 cid2 hbb hiou hcid hne

theorem processAnns_mem (coco1 : Coco) (thr : ℚ) (imap cmap : List (ℤ × ℤ))
    (cats1 cats2 : List (ℤ × String)) (idx : List (ℤ × List CAnn)) :
    ∀ (l : List CAnn) (L : List Mismatch),
      processAnns coco1 thr imap cmap cats1 cats2 idx l = some L →
      ∀ a1 ∈ l, ∀ (iid1 iid2 : ℤ) (anns2 : List CAnn) (cid1 : ℤ)
        (catname1 : String) (expCid : ℤ) (bb1 : Bbox),
        a1.image_id = some iid1 → dfind imap iid1 = some iid2 →
        dfind idx iid2 = some anns2 → a1.category_id = some cid1 →
        dfind cats1 cid1 = some catname1 → dfind cmap cid1 = some expCid →
        a1.bbox = some bb1 →
        ∃ ms, innerLoop coco1 cats2 thr iid1 catname1 expCid (toBox bb1) a1 anns2
            = some ms ∧ ∀ m ∈ ms, m ∈ L := by
  intro l
  induction l with
  | nil =>
      intro L _ a1 ha1 _ _ _ _ _ _ _ _ _ _ _ _ _ _
      cases ha1
  | cons a1' rest ih =>
      intro L h a1 ha1 iid1 iid2 anns2 cid1 catname1 expCid bb1 h1 h2 h3 h4 h5 h6 h7
      rcases List.mem_cons.1 ha1 with rfl | hmem
      · simp only [processAnns, h1, h2, h3, h4, h5, h6, h7] at h
        cases hrec : innerLoop coco1 cats2 thr iid1 catname1 expCid (toBox bb1)
            a1 anns2 with
        | none =>
            simp only [hrec] at h
            exact Option.noConfusion h
        | some ms =>
            simp only [hrec] at h
            cases hrest : processAnns coco1 thr imap cmap cats1 cats2 idx rest with
            | none =>
                simp only [hrest] at h
                exact Option.noConfusion h
            | some msr =>
                simp only [hrest, Option.some.injEq] at h
                subst h
                exact ⟨ms, rfl, fun m hm => List.mem_append_left _ hm⟩
      · cases hh1 : a1'.image_id with
        | none =>
            simp only [processAnns, hh1] at h
            exact Option.noConfusion h
        | some iid1' =>
            simp only [processAnns, hh1] at h
            cases hh2 : dfind imap iid1' with
            | none =>
                simp only [hh2] at h
                exact ih L h a1 hmem iid1 iid2 anns2 cid1 catname1 expCid bb1
                  h1 h2 h3 h4 h5 h6 h7
            | some iid2' =>
                simp only [hh2] at h
                cases hh3 : dfind idx iid2' with
                | none =>
                    simp only [hh3] at h
                    exact ih L h a1 hmem iid1 iid2 anns2 cid1 catname1 expCid bb1
                      h1 h2 h3 h4 h5 h6 h7
                | some anns2' =>
                    simp only [hh3] at h
                    cases hh4 : a1'.category_id with
                    | none =>
                        simp only [hh4] at h
                        exact Option.noConfusion h
                    | some cid1' =>
                        simp only [hh4] at h
                        cases hh5 : dfind cats1 cid1' with
                        | none =>
                            simp only [hh5] at h
                            exact ih L h a1 hmem iid1 iid2 anns2 cid1 catname1
                              expCid bb1 h1 h2 h3 h4 h5 h6 h7
                        | some catname1' =>
                            simp only [hh5] at h
                            cases hh6 : dfind cmap cid1' with
                            | none =>
                                simp only [hh6] at h
                                exact ih L h a1 hmem iid1 iid2 anns2 cid1
                                  catname1 expCid bb1 h1 h2 h3 h4 h5 h6 h7
                            | some expCid' =>
                                simp only [hh6] at h
                                cases hh7 : a1'.bbox with
                                | none =>
                                    simp only [hh7] at h
                                    exact Option.noConfusion h
                                | some bb1' =>
                                    simp only [hh7] at h
                                    cases hrec : innerLoop coco1 cats2 thr iid1'
                                        catname1' expCid' (toBox bb1') a1' anns2' with
                                    | none =>
                                        simp only [hrec] at h
                                        exact Option.noConfusion h
                                    | some ms' =>
                                        simp only [hrec] at h
                                        cases hrest : processAnns coco1 thr imap
                                            cmap cats1 cats2 idx rest with
                                        | none =>
                                            simp only [hrest] at h
                                            exact Option.noConfusion h
                                        | some msr =>
                                            simp only [hrest, Option.some.injEq] at h
                                            subst h
                                            obtain ⟨ms, hms, hsub⟩ :=
                                              ih msr hrest a1 hmem iid1 iid2 anns2
                                                cid1 catname1 expCid bb1
                                                h1 h2 h3 h4 h5 h6 h7
                                            exact ⟨ms, hms, fun m hm =>
                                              List.mem_append_right _ (hsub m hm)⟩

end CompareMembership

section ClaimC5

/-- C5: for a candidate pair on corresponding images with resolvable and
differing (corresponded) categories, an IoU exactly equal to the threshold
is reported (the comparison at line 149 is an inclusive `>=`), while an
IoU strictly below the threshold is never reported. -/
theorem claim_C5_threshold_boundary (coco1 coco2 : Coco) (thr : ℚ)
    (a1 a2 : CAnn) (iid1 iid2 cid1 expCid cid2 : ℤ) (catname1 : String)
    (bb1 bb2 : Bbox)
    (hwf1 : ∀ a ∈ coco1.annotations,
      a.image_id ≠ none ∧ a.category_id ≠ none ∧ a.bbox ≠ none)
    (hwf2 : ∀ a ∈ coco2.annotations,
      a.image_id ≠ none ∧ a.category_id ≠ none ∧ a.bbox ≠ none)
    (ha1 : a1 ∈ coco1.annotations)
    (ha2 : a2 ∈ coco2.annotations)
    (h1i : a1.image_id = some iid1)
    (himap : dfind (match_images_by_filename coco1 coco2) iid1 = some iid2)
    (h2i : a2.image_id = some iid2)
    (h1c : a1.category_id = some cid1)
    (hcat1 : dfind (pyDict (coco1.categories.map (fun c => (c.id, c.name)))) cid1
      = some catname1)
    (hcmap : dfind (create_category_mapping coco1 coco2) cid1 = some expCid)
    (h1b : a1.bbox = some bb1)
    (h2b : a2.bbox = some bb2)
    (h2c : a2.category_id = some cid2)
    (hne : cid2 ≠ expCid) :
    (calculate_iou (toBox bb1) (toBox bb2) = thr →
      ∃ L, compare_coco_annotations coco1 coco2 thr = some L ∧
        ∃ m ∈ L, m.ann1 = a1 ∧ m.ann2 = a2) ∧
    (calculate_iou (toBox bb1) (toBox bb2) < thr →
      ∀ L, compare_coco_annotations coco1 coco2 thr = some L →
        ∀ m ∈ L, ¬(m.ann1 = a1 ∧ m.ann2 = a2)) := by
  constructor
  · intro hiou
    have hthr : thr ≤ calculate_iou (toBox bb1) (toBox bb2) := le_of_eq hiou.symm
    obtain ⟨idx, hidx⟩ := buildIndex_isSome coco2.annotations []
      (fun a ha => (hwf2 a ha).1)
    obtain ⟨anns2, hanns2, ha2mem⟩ := buildIndex_lookup coco2.annotations idx
      hidx a2 iid2 ha2 h2i
    have hidxwf : ∀ (i : ℤ) (l2 : List CAnn), dfind idx i = some l2 →
        ∀ a ∈ l2, a.bbox ≠ none ∧ a.category_id ≠ none := by
      intro i l2 hl2 a ha
      have := buildIndex_sub coco2.annotations idx hidx i l2 hl2 a ha
      exact ⟨(hwf2 a this).2.2, (hwf2 a this).2.1⟩
    have htot := processAnns_total coco1 thr
      (match_images_by_filename coco1 coco2)
      (create_category_mapping coco1 coco2)
      (pyDict (coco1.categories.map (fun c => (c.id, c.name))))
      (pyDict (coco2.categories.map (fun c => (c.id, c.name))))
      idx hidxwf coco1.annotations hwf1
    obtain ⟨L, hL⟩ := Option.isSome_iff_exists.1 htot
    have hcomp : compare_coco_annotations coco1 coco2 thr = some L := by
      simp only [compare_coco_annotations, hidx]
      exact hL
    obtain ⟨ms, hms, hsub⟩ := processAnns_mem coco1 thr
      (match_images_by_filename coco1 coco2)
      (create_category_mapping coco1 coco2)
      (pyDict (coco1.categories.map (fun c => (c.id, c.name))))
      (pyDict (coco2.categories.map (fun c => (c.id, c.name))))
      idx coco1.annotations L hL a1 ha1 iid1 iid2 anns2 cid1 catname1 expCid bb1
      h1i himap hanns2 h1c hcat1 hcmap h1b
    obtain ⟨m, hm, hm1, hm2⟩ := innerLoop_mem coco1
      (pyDict (coco2.categories.map (fun c => (c.id, c.name)))) thr iid1
      catname1 expCid (toBox bb1) a1 anns2 ms hms a2 ha2mem bb2 cid2
      h2b hthr h2c hne
    exact ⟨L, hcomp, m, hsub m hm, hm1, hm2⟩
  · intro hlt L hL m hm hma
    obtain ⟨cid1', expCid', _, _, ⟨bb1', hb1', hbox1⟩,
      bb2', cid2', hb2', hbox2, hiou, hthr, _, _⟩ :=
      compare_sound coco1 coco2 thr L hL m hm
    rw [hma.1] at hb1'
    rw [hma.2] at hb2'
    rw [h1b] at hb1'
    rw [h2b] at hb2'
    cases hb1'
    cases hb2'
    rw [hbox1] at hiou
    rw [hiou] at hthr
    exact absurd hthr (not_le.2 hlt)

/-- Witness for C5: the example pair has IoU exactly 1/2 at threshold 1/2
and is reported. -/
theorem claim_C5_threshold_boundary_witness :
    ∃ L, compare_coco_annotations cocoA cocoB (1/2) = some L ∧
      ∃ m ∈ L, m.ann1 = (⟨some 1, some 1, some ⟨0, 0, 1, 1⟩⟩ : CAnn) ∧
        m.ann2 = (⟨some 5, some 9, some ⟨0, 0, 1, 2⟩⟩ : CAnn) := by
  have hiou : calculate_iou (toBox ⟨0, 0, 1, 1⟩) (toBox ⟨0, 0, 1, 2⟩) = 1/2 := by
    have h1 : toBox ⟨0, 0, 1, 1⟩ = (⟨0, 0, 1, 1⟩ : Box) := by
      simp [toBox]
    have h2 : toBox ⟨0, 0, 1, 2⟩ = (⟨0, 0, 1, 2⟩ : Box) := by
      simp [toBox]
    rw [h1, h2, iou_example]
  exact (claim_C5_threshold_boundary cocoA cocoB (1/2)
    ⟨some 1, some 1, some ⟨0, 0, 1, 1⟩⟩ ⟨some 5, some 9, some ⟨0, 0, 1, 2⟩⟩
    1 5 1 7 9 "cat" ⟨0, 0, 1, 1⟩ ⟨0, 0, 1, 2⟩
    (by decide) (by decide) (by decide) (by decide) rfl (by decide) rfl rfl
    (by decide) (by decide) rfl rfl rfl (by decide)).1 hiou

end ClaimC5
